import Mathlib

/-!
# A verification development for the glox expression pipeline

This file gives a shallow embedding, in Lean 4, of the glox scanner
(`frontend.go`), recursive-descent parser (`frontend.go`), tree-walking
evaluator (`backend.go`), diagnostic printer (`printer.go`), error reporter
(`report.go` and its sibling with the runtime-error hook), and the host
driver `run` (`cmd/glox.go`), together with theorems settling the frozen
claims about that code.

Modelling conventions, chosen once and used throughout:

* Go `[]byte`/`string` values are modelled as `List Nat` (one `Nat` per byte).
* Go `float64` is idealised as the exact rationals `ℚ`; the arithmetic
  helpers below (`ratAdd` etc.) are implemented with `mkRat` so that they
  reduce inside the kernel.  No theorem in this file depends on IEEE-754
  rounding, and division by zero (Go: `±Inf`/`NaN`) is kept out of every
  concrete input (Lean's `mkRat x 0 = 0` junk value is never exercised).
* Go's `interface{}` universe of runtime values is the inductive `GoValue`.
  It distinguishes the *raw* Go values (`bool`, `float64`, `string`) from
  the wrapper structs `Boolean`, `Number`, `String` declared in the source,
  because Go type switches distinguish them — this distinction is essential
  to several claims.
* Unbounded Go loops and the panicking recursion in `VisitUnary` are
  modelled with an explicit fuel parameter; a result of `none` means the
  fuel ran out, i.e. the modelled computation has not terminated within
  that budget.  Termination claims are proved as fuel-sufficiency theorems.
* Go `panic`/`recover` in the parser is modelled by the explicit error type
  `PErr` threaded through every rule, caught once in `Parse` exactly as the
  source's `defer`/`recover` does.
* Out-of-range token access (`tokens[current]`) would panic in Go; it can
  only happen on token lists that lack an end-of-input token, which the
  scanner never produces.  The model uses `List.getD` with an EOF-typed
  default, which agrees with Go on every list containing an EOF token.
-/

namespace Glox

/-- Decidable equality for `Except` results, so that concrete runs can be
settled with `decide`. -/
instance {α β : Type} [DecidableEq α] [DecidableEq β] : DecidableEq (Except α β) := fun a b =>
  match a, b with
  | .error x, .error y =>
    if h : x = y then .isTrue (by rw [h]) else .isFalse (by intro hh; cases hh; exact h rfl)
  | .error _, .ok _ => .isFalse (by intro hh; cases hh)
  | .ok _, .error _ => .isFalse (by intro hh; cases hh)
  | .ok x, .ok y =>
    if h : x = y then .isTrue (by rw [h]) else .isFalse (by intro hh; cases hh; exact h rfl)

/-- Byte value of an ASCII character, used to write Go `byte` literals. -/
def byteOf (c : Char) : Nat := c.toNat

/-- Bytes of an ASCII string literal, modelling a Go `string` as its bytes. -/
def strBytes (s : String) : List Nat := s.toList.map Char.toNat

/-! ## Exact-rational model of Go `float64` arithmetic

Implemented on numerator/denominator via `mkRat` (rather than `ℚ`'s
bundled `+`/`*`) so that concrete runs reduce inside the kernel; the
bridging lemmas right below show they are the ordinary field operations. -/

/-- Model of Go `float64` addition (exact). -/
def ratAdd (a b : ℚ) : ℚ := mkRat (a.num * b.den + b.num * a.den) (a.den * b.den)

/-- Model of Go `float64` subtraction (exact). -/
def ratSub (a b : ℚ) : ℚ := mkRat (a.num * b.den - b.num * a.den) (a.den * b.den)

/-- Model of Go `float64` multiplication (exact). -/
def ratMul (a b : ℚ) : ℚ := mkRat (a.num * b.num) (a.den * b.den)

/-- Model of Go `float64` division (exact; Go's `x/0 = ±Inf/NaN` is not
representable and is avoided by every theorem below). -/
def ratDiv (a b : ℚ) : ℚ :=
  if b.num < 0 then mkRat (-(a.num * b.den)) (a.den * b.num.natAbs)
  else mkRat (a.num * b.den) (a.den * b.num.natAbs)

/-- Model of Go `float64` negation (exact). -/
def ratNeg (a : ℚ) : ℚ := mkRat (-a.num) a.den

/-- Model of Go `float64` strict comparison `<` (exact). -/
def ratLtB (a b : ℚ) : Bool := decide (a.num * b.den < b.num * a.den)

/-- Model of Go `float64` comparison `<=` (exact). -/
def ratLeB (a b : ℚ) : Bool := decide (a.num * b.den ≤ b.num * a.den)

/-! ## Tokens (`frontend.go`) -/

/-- The token kinds of `frontend.go`, in source order (`iota` starts at
`TokenLeftParen`, so the zero value of the Go type is `TokenLeftParen`). -/
inductive TokenType where
  | TokenLeftParen
  | TokenRightParen
  | TokenLeftBrace
  | TokenRightBrace
  | TokenComma
  | TokenDot
  | TokenMinus
  | TokenPlus
  | TokenSemicolon
  | TokenSlash
  | TokenStar
  | TokenQuestion
  | TokenColon
  | TokenBang
  | TokenBangEqual
  | TokenEqual
  | TokenEqualEqual
  | TokenGreater
  | TokenGreaterEqual
  | TokenLess
  | TokenLessEqual
  | TokenIdentifier
  | TokenString
  | TokenNumber
  | TokenAnd
  | TokenClass
  | TokenElse
  | TokenFalse
  | TokenFun
  | TokenFor
  | TokenIf
  | TokenNil
  | TokenOr
  | TokenPrint
  | TokenReturn
  | TokenSuper
  | TokenThis
  | TokenTrue
  | TokenVar
  | TokenWhile
  | TokenEof
deriving DecidableEq

/-- The Go `interface{}` universe of glox runtime and literal values.
Raw Go values (`bool`, `float64`, `string`) and the printable wrapper
structs (`Boolean`, `Number`, `String` of `frontend.go`) are distinct
dynamic types in Go, so they are distinct constructors here. -/
inductive GoValue where
  | nil
  | bool (v : Bool)
  | float64 (v : ℚ)
  | string (v : List Nat)
  | Boolean (v : Bool)
  | Number (v : ℚ)
  | String (v : List Nat)
deriving DecidableEq

/-- `Token` of `frontend.go`: kind, raw lexeme text, literal payload
(`interface{}`, i.e. `GoValue.nil` when absent), and source line. -/
structure Token where
  type : TokenType
  lexeme : List Nat
  literal : GoValue
  line : Nat
deriving DecidableEq

/-- The zero value `Token{}` of Go (note `TokenType(0) = TokenLeftParen`
and line `0`); this is what `assertString` puts into its `RuntimeError`. -/
def emptyToken : Token := ⟨.TokenLeftParen, [], .nil, 0⟩

/-- Default used for out-of-range `tokens[i]` access (see header note). -/
def eofToken : Token := ⟨.TokenEof, [], .nil, 0⟩

/-! ## Diagnostics (`report.go` and the runtime-error reporter) -/

/-- The messages carried by `RuntimeError` in `backend.go`, one constructor
per Go format string:
`"operand must be a number."`, `"operand must be string"`,
`"expected two strings or two numbers but got %v + %v"`,
`"unknown binary operation"`, `"unexpected unary operator"`. -/
inductive Msg where
  | operandMustBeNumber
  | operandMustBeString
  | expectedTwoStringsOrTwoNumbers (l r : GoValue)
  | unknownBinaryOperation
  | unexpectedUnaryOperator
deriving DecidableEq

/-- `RuntimeError` of `backend.go`: offending token plus message. -/
structure RuntimeError where
  token : Token
  msg : Msg
deriving DecidableEq

/-- One diagnostic emitted through the reporter: `diag` models
`Report(line, where, message)` (printed `[line N] Error<where>: <msg>`),
`runtime` models `RuntimeError(e)` (printed `<msg>\n[line N]`). -/
inductive Report where
  | diag (line : Nat) (whre : List Nat) (msg : String)
  | runtime (msg : Msg) (line : Nat)
deriving DecidableEq

/-- `StateErrorReporter`: the two sticky flags plus the emitted
diagnostics in order. -/
structure Reporter where
  hadError : Bool := false
  hadRuntimeError : Bool := false
  reports : List Report := []
deriving DecidableEq

/-- `Report` method: record a diagnostic and set the sticky error flag. -/
def Reporter.report (r : Reporter) (line : Nat) (whre : List Nat) (msg : String) : Reporter :=
  { r with hadError := true, reports := r.reports ++ [.diag line whre msg] }

/-- `Error` method: `Report` with an empty location description. -/
def Reporter.error (r : Reporter) (line : Nat) (msg : String) : Reporter :=
  r.report line [] msg

/-- `RuntimeError` method: record the runtime diagnostic (message plus the
offending token's line) and set the sticky runtime-error flag. -/
def Reporter.runtimeError (r : Reporter) (e : RuntimeError) : Reporter :=
  { r with hadRuntimeError := true, reports := r.reports ++ [.runtime e.msg e.token.line] }

/-! ## Expression trees

Modelled from the spec: the node declarations themselves (the `Expr`
interface and the `Literal`, `Grouping`, `Unary`, `Binary`, `Ternary`
structs with their visitor dispatch) are not among the provided source
files, but §3 of the spec fixes them as a closed five-variant tagged
union, and every provided file constructs or matches exactly these five
shapes with exactly these fields. -/
inductive Expr where
  | Literal (value : GoValue)
  | Grouping (expression : Expr)
  | Unary (operator : Token) (right : Expr)
  | Binary (left : Expr) (operator : Token) (right : Expr)
  | Ternary (cond : Expr) (trueBranch : Expr) (falseBranch : Expr)
deriving DecidableEq

/-- Structural size of a tree, used as an evaluation fuel budget. -/
def exprSize : Expr → Nat
  | .Literal _ => 1
  | .Grouping e => exprSize e + 1
  | .Unary _ r => exprSize r + 1
  | .Binary l _ r => exprSize l + exprSize r + 1
  | .Ternary c t f => exprSize c + exprSize t + exprSize f + 1

/-- The operator tokens occurring in a tree (of its Unary/Binary nodes). -/
def opTokens : Expr → List Token
  | .Literal _ => []
  | .Grouping e => opTokens e
  | .Unary op r => op :: opTokens r
  | .Binary l op r => op :: (opTokens l ++ opTokens r)
  | .Ternary c t f => opTokens c ++ opTokens t ++ opTokens f

/-! ## Scanner (`frontend.go`, `Scanner`)

The scanner state carries the same fields as the Go struct; the shared
source buffer is passed separately.  The inner `for` loops of comments,
strings, numbers and identifiers are modelled with an explicit fuel
argument (always called with `src.length`, which the progress lemmas
below show is enough). -/

structure ScanState where
  start : Nat
  current : Nat
  line : Nat
  tokens : List Token
  reporter : Reporter
deriving DecidableEq

/-- `isDigit`: `c >= '0' && c <= '9'`. -/
def isDigitB (c : Nat) : Bool := byteOf '0' ≤ c && c ≤ byteOf '9'

/-- `isAlpha`: letters and underscore. -/
def isAlphaB (c : Nat) : Bool :=
  (byteOf 'a' ≤ c && c ≤ byteOf 'z') || (byteOf 'A' ≤ c && c ≤ byteOf 'Z') || c == byteOf '_'

/-- `isAlphaNumeric`. -/
def isAlphaNumericB (c : Nat) : Bool := isAlphaB c || isDigitB c

/-- `isAtEnd`: `current >= len(source)`. -/
def isAtEndS (src : List Nat) (cur : Nat) : Bool := src.length ≤ cur

/-- `peek`: the current byte, or `0` at the end of input (as in Go). -/
def peekS (src : List Nat) (cur : Nat) : Nat := src.getD cur 0

/-- `peekNext`: one byte of lookahead, or `0` (as in Go). -/
def peekNextS (src : List Nat) (cur : Nat) : Nat := src.getD (cur + 1) 0

/-- `match`: conditional advance; returns whether it advanced and the new
cursor. -/
def matchS (src : List Nat) (cur : Nat) (expected : Nat) : Bool × Nat :=
  if isAtEndS src cur then (false, cur)
  else if peekS src cur ≠ expected then (false, cur)
  else (true, cur + 1)

/-- The keyword table of `frontend.go` (a Go map with fixed entries). -/
def keywords : List (List Nat × TokenType) :=
  [(strBytes "and", .TokenAnd), (strBytes "class", .TokenClass),
   (strBytes "else", .TokenElse), (strBytes "false", .TokenFalse),
   (strBytes "for", .TokenFor), (strBytes "fun", .TokenFun),
   (strBytes "if", .TokenIf), (strBytes "nil", .TokenNil),
   (strBytes "or", .TokenOr), (strBytes "print", .TokenPrint),
   (strBytes "return", .TokenReturn), (strBytes "super", .TokenSuper),
   (strBytes "this", .TokenThis), (strBytes "true", .TokenTrue),
   (strBytes "var", .TokenVar), (strBytes "while", .TokenWhile)]

/-- The keyword lookup of `identifier()`: a found entry, else
`TokenIdentifier`. -/
def keywordLookup (w : List Nat) : TokenType :=
  match keywords.lookup w with
  | some ty => ty
  | none => .TokenIdentifier

/-- `addLiteralToken`: append a token whose lexeme is
`source[start:current]`. -/
def addLiteralToken (src : List Nat) (ty : TokenType) (lit : GoValue) (st : ScanState) : ScanState :=
  { st with tokens :=
      st.tokens ++ [⟨ty, (src.drop st.start).take (st.current - st.start), lit, st.line⟩] }

/-- `addToken`: `addLiteralToken` with a `nil` payload. -/
def addToken (src : List Nat) (ty : TokenType) (st : ScanState) : ScanState :=
  addLiteralToken src ty .nil st

/-- The `//`-comment loop: advance while not at a newline or the end. -/
def commentLoop (src : List Nat) : Nat → Nat → Nat
  | 0, cur => cur
  | fuel + 1, cur =>
    if peekS src cur ≠ byteOf '\n' ∧ ¬ isAtEndS src cur then commentLoop src fuel (cur + 1)
    else cur

/-- The string-literal loop: advance to the closing quote or the end,
counting newlines (glox strings are multi-line). -/
def stringLoop (src : List Nat) : Nat → Nat → Nat → Nat × Nat
  | 0, cur, line => (cur, line)
  | fuel + 1, cur, line =>
    if peekS src cur ≠ byteOf '"' ∧ ¬ isAtEndS src cur then
      stringLoop src fuel (cur + 1) (if peekS src cur = byteOf '\n' then line + 1 else line)
    else (cur, line)

/-- The digit loop of `number`: advance while looking at a digit. -/
def digitsLoop (src : List Nat) : Nat → Nat → Nat
  | 0, cur => cur
  | fuel + 1, cur => if isDigitB (peekS src cur) then digitsLoop src fuel (cur + 1) else cur

/-- The identifier loop: advance while looking at a letter/digit/underscore. -/
def identLoop (src : List Nat) : Nat → Nat → Nat
  | 0, cur => cur
  | fuel + 1, cur => if isAlphaNumericB (peekS src cur) then identLoop src fuel (cur + 1) else cur

/-- Value of a (pure) digit string, used by the `ParseFloat` model. -/
def digitsVal (l : List Nat) : Nat := l.foldl (fun acc d => acc * 10 + (d - byteOf '0')) 0

/-- Model of `strconv.ParseFloat` restricted to the scanner's numeric
lexemes, `digits ('.' digits)?`, idealised as the exact rational the
decimal denotes (see the header note on `float64`). -/
def parseFloatLit (l : List Nat) : ℚ :=
  let ip := l.takeWhile isDigitB
  let rest := l.dropWhile isDigitB
  let fr := (rest.drop 1).takeWhile isDigitB
  mkRat (digitsVal ip * 10 ^ fr.length + digitsVal fr) (10 ^ fr.length)

/-- `string()`: scan a string literal; on a missing closing quote report
`"Unterminated string."` and emit no token, otherwise emit a
`TokenString` whose payload is the *raw* Go string between the quotes. -/
def stringFn (src : List Nat) (st : ScanState) : ScanState :=
  let res := stringLoop src src.length st.current st.line
  if isAtEndS src res.1 then
    { st with current := res.1, line := res.2,
              reporter := st.reporter.error res.2 "Unterminated string." }
  else
    let st := { st with current := res.1 + 1, line := res.2 }
    let value := (src.drop (st.start + 1)).take (st.current - 1 - (st.start + 1))
    addLiteralToken src .TokenString (.string value) st

/-- `number()`: scan digits, an optional fraction, and emit a
`TokenNumber` whose payload is a `Number` wrapper. -/
def numberFn (src : List Nat) (st : ScanState) : ScanState :=
  let cur1 := digitsLoop src src.length st.current
  let cur2 :=
    if peekS src cur1 = byteOf '.' ∧ isDigitB (peekNextS src cur1) then
      digitsLoop src src.length (cur1 + 1)
    else cur1
  let st := { st with current := cur2 }
  addLiteralToken src .TokenNumber
    (.Number (parseFloatLit ((src.drop st.start).take (st.current - st.start)))) st

/-- `identifier()`: scan a word and classify it through the keyword table. -/
def identifierFn (src : List Nat) (st : ScanState) : ScanState :=
  let cur1 := identLoop src src.length st.current
  let st := { st with current := cur1 }
  let text := (src.drop st.start).take (st.current - st.start)
  addToken src (keywordLookup text) st

/-- Helper for the two-character operators: on a following `=`, emit the
two-character token, else the one-character token. -/
def matchEqElse (src : List Nat) (two one : TokenType) (st : ScanState) : ScanState :=
  let m := matchS src st.current (byteOf '=')
  if m.1 then addToken src two { st with current := m.2 }
  else addToken src one st

/-- The single-character cases of the `scanToken` switch (Go cases `(` to
`:`), as a partial classification of the consumed byte. -/
def singleTokenType (c : Nat) : Option TokenType :=
  if c = byteOf '(' then some .TokenLeftParen
  else if c = byteOf ')' then some .TokenRightParen
  else if c = 123 then some .TokenLeftBrace
  else if c = 125 then some .TokenRightBrace
  else if c = byteOf ',' then some .TokenComma
  else if c = byteOf '.' then some .TokenDot
  else if c = byteOf '-' then some .TokenMinus
  else if c = byteOf '+' then some .TokenPlus
  else if c = byteOf ';' then some .TokenSemicolon
  else if c = byteOf '*' then some .TokenStar
  else if c = byteOf '?' then some .TokenQuestion
  else if c = byteOf ':' then some .TokenColon
  else none

/-- The two-character-lookahead cases of the switch (Go cases `!`, `=`,
`<`, `>`): the pair is (token with following `=`, token without). -/
def twoCharTypes (c : Nat) : Option (TokenType × TokenType) :=
  if c = byteOf '!' then some (.TokenBangEqual, .TokenBang)
  else if c = byteOf '=' then some (.TokenEqualEqual, .TokenEqual)
  else if c = byteOf '<' then some (.TokenLessEqual, .TokenLess)
  else if c = byteOf '>' then some (.TokenGreaterEqual, .TokenGreater)
  else none

/-- The `switch` body of `scanToken`, acting on the byte `c` just consumed
by `advance()` (Go `switch` cases do not fall through; the cases are
grouped here as the single-char table, the two-char table, and the
remaining cases in source order). -/
def dispatchToken (src : List Nat) (c : Nat) (st : ScanState) : ScanState :=
  match singleTokenType c with
  | some ty => addToken src ty st
  | none =>
  match twoCharTypes c with
  | some tys => matchEqElse src tys.1 tys.2 st
  | none =>
  if c = byteOf '/' then
    let m := matchS src st.current (byteOf '/')
    if m.1 then { st with current := commentLoop src src.length m.2 }
    else addToken src .TokenSlash st
  else if c = byteOf ' ' then st
  else if c = byteOf '\t' then st
  else if c = 13 then st
  else if c = byteOf '\n' then { st with line := st.line + 1 }
  else if c = byteOf '"' then stringFn src st
  else if isDigitB c then numberFn src st
  else if isAlphaB c then identifierFn src st
  else { st with reporter := st.reporter.error st.line "Unexpected character." }

/-- `scanToken`: `advance()` one byte, then run the `switch` on it. -/
def scanToken (src : List Nat) (st : ScanState) : ScanState :=
  dispatchToken src (peekS src st.current) { st with current := st.current + 1 }

/-- The `for !isAtEnd` loop of `ScanTokens`, with fuel; each iteration
resets `start` to `current` and consumes one lexeme. -/
def scanLoop (src : List Nat) : Nat → ScanState → Option ScanState
  | 0, _ => none
  | fuel + 1, st =>
    if ¬ isAtEndS src st.current then
      scanLoop src fuel (scanToken src { st with start := st.current })
    else some st

/-- The initial scanner state of `NewScanner` (line counter starts at 1). -/
def initialScanState (reporter : Reporter) : ScanState := ⟨0, 0, 1, [], reporter⟩

/-- `ScanTokens`: run the scan loop and append the final EOF token.  The
fuel `src.length + 1` is sufficient (`scanLoop_isSome` below), so the
`none` fallback is dead code. -/
def ScanTokens (src : List Nat) (reporter : Reporter) : List Token × Reporter :=
  match scanLoop src (src.length + 1) (initialScanState reporter) with
  | some st => (st.tokens ++ [⟨.TokenEof, [], .nil, st.line⟩], st.reporter)
  | none => ([⟨.TokenEof, [], .nil, 1⟩], reporter)

/-- The payload discipline the scanner maintains: number tokens carry a
`Number` wrapper, string tokens carry a raw Go string. -/
def scannedLitOK (t : Token) : Prop :=
  (t.type = .TokenNumber → ∃ q, t.literal = .Number q) ∧
  (t.type = .TokenString → ∃ s, t.literal = .string s)

/-- A byte the scanner does not recognize: none of the switch cases of
`scanToken` applies to it. -/
def unrecognizedByte (c : Nat) : Bool :=
  (singleTokenType c).isNone && (twoCharTypes c).isNone &&
    (c != byteOf '/') && (c != byteOf ' ') && (c != byteOf '\t') && (c != 13) &&
    (c != byteOf '\n') && (c != byteOf '"') && !isDigitB c && !isAlphaB c

/-! ## Evaluator (`backend.go`, `Interpreter`) -/

/-- `isTruthy` of `backend.go`.  Its own comment says: anything that is
not nil and not false (strict boolean), mimicking Ruby.  Note that the
type switch tests the *wrapper* type `Boolean`; a raw Go `bool` falls
into the default branch. -/
def isTruthy (v : GoValue) : Bool :=
  match v with
  | .nil => false
  | .Boolean b => b
  | _ => true

/-- `isEqual`: Go interface equality `left == right` (equal dynamic type
and equal value). -/
def isEqual (l r : GoValue) : Bool := decide (l = r)

/-- `assertNumber`: accept a `Number` wrapper or a raw `float64`, else a
`RuntimeError` `"operand must be a number."` carrying the operator token. -/
def assertNumber (operator : Token) (v : GoValue) : Except RuntimeError ℚ :=
  match v with
  | .Number q => .ok q
  | .float64 q => .ok q
  | _ => .error ⟨operator, .operandMustBeNumber⟩

/-- `assertString`: accept a `String` wrapper or a raw `string`, else a
`RuntimeError` `"operand must be string"` carrying the zero value
`Token{}` (it takes no operator argument in the source). -/
def assertString (v : GoValue) : Except RuntimeError (List Nat) :=
  match v with
  | .String s => .ok s
  | .string s => .ok s
  | _ => .error ⟨emptyToken, .operandMustBeString⟩

/-- `VisitLiteral`: unwrap `Number`/`String`/`Boolean` wrappers to raw Go
values; anything else (in particular `nil`) is returned unchanged. -/
def visitLiteral (v : GoValue) : GoValue :=
  match v with
  | .Number q => .float64 q
  | .String s => .string s
  | .Boolean b => .bool b
  | v => v

/-- The operator dispatch of `VisitBinary` (lines 55–141 of `backend.go`),
applied after both operands have evaluated.  In the `TokenPlus` case with
a `float64` left operand and a failing `assertNumber` on the right, the
Go code's `if` branch is empty, so control falls out of the `switch` to
the final `return RuntimeError{..., "unknown binary operation"}`; that
fall-through is modelled directly. -/
def visitBinaryOp (op : Token) (left right : GoValue) : Except RuntimeError GoValue :=
  match op.type with
  | .TokenMinus =>
    match assertNumber op left with
    | .error e => .error e
    | .ok lv =>
      match assertNumber op right with
      | .error e => .error e
      | .ok rv => .ok (.float64 (ratSub lv rv))
  | .TokenSlash =>
    match assertNumber op left with
    | .error e => .error e
    | .ok lv =>
      match assertNumber op right with
      | .error e => .error e
      | .ok rv => .ok (.float64 (ratDiv lv rv))
  | .TokenStar =>
    match assertNumber op left with
    | .error e => .error e
    | .ok lv =>
      match assertNumber op right with
      | .error e => .error e
      | .ok rv => .ok (.float64 (ratMul lv rv))
  | .TokenPlus =>
    match left with
    | .string lv =>
      (match assertString right with
       | .error e => .error e
       | .ok rv => .ok (.string (lv ++ rv)))
    | .float64 lv =>
      (match assertNumber op right with
       | .error _ => .error ⟨op, .unknownBinaryOperation⟩
       | .ok rv => .ok (.float64 (ratAdd lv rv)))
    | _ => .error ⟨op, .expectedTwoStringsOrTwoNumbers left right⟩
  | .TokenGreaterEqual =>
    match assertNumber op left with
    | .error e => .error e
    | .ok lv =>
      match assertNumber op right with
      | .error e => .error e
      | .ok rv => .ok (.bool (ratLeB rv lv))
  | .TokenGreater =>
    match assertNumber op left with
    | .error e => .error e
    | .ok lv =>
      match assertNumber op right with
      | .error e => .error e
      | .ok rv => .ok (.bool (ratLtB rv lv))
  | .TokenLessEqual =>
    match assertNumber op left with
    | .error e => .error e
    | .ok lv =>
      match assertNumber op right with
      | .error e => .error e
      | .ok rv => .ok (.bool (ratLeB lv rv))
  | .TokenLess =>
    match assertNumber op left with
    | .error e => .error e
    | .ok lv =>
      match assertNumber op right with
      | .error e => .error e
      | .ok rv => .ok (.bool (ratLtB lv rv))
  | .TokenBangEqual => .ok (.bool (! isEqual left right))
  | .TokenEqualEqual => .ok (.bool (isEqual left right))
  | _ => .error ⟨op, .unknownBinaryOperation⟩

/-- `visit`/`Visit` double dispatch of the evaluator, with fuel (see the
header note).  The `Unary` case reproduces the source exactly: line 162
of `backend.go` is `e, right := interpreter.visit(unary)` — it visits the
*whole unary node again*, not its operand, so the recursion never reaches
the operator switch below it. -/
def visit : Nat → Expr → Option (Except RuntimeError GoValue)
  | 0, _ => none
  | fuel + 1, e =>
    match e with
    | .Literal v => some (.ok (visitLiteral v))
    | .Grouping g => visit fuel g
    | .Unary op r =>
      match visit fuel (.Unary op r) with
      | none => none
      | some (.error err) => some (.error err)
      | some (.ok right) =>
        match op.type with
        | .TokenMinus =>
          (match assertNumber op right with
           | .error err => some (.error err)
           | .ok v => some (.ok (.float64 (ratNeg v))))
        | .TokenBang => some (.ok (.bool (! isTruthy right)))
        | _ => some (.error ⟨op, .unexpectedUnaryOperator⟩)
    | .Binary l op r =>
      match visit fuel l with
      | none => none
      | some (.error err) => some (.error err)
      | some (.ok left) =>
        match visit fuel r with
        | none => none
        | some (.error err) => some (.error err)
        | some (.ok right) => some (visitBinaryOp op left right)
    | .Ternary c t f =>
      match visit fuel c with
      | none => none
      | some (.error err) => some (.error err)
      | some (.ok cond) => if isTruthy cond then visit fuel t else visit fuel f

/-! ## Rendering of values -/

/-- Decimal digits of a natural number as bytes. -/
def natDigits (n : Nat) : List Nat := (Nat.toDigits 10 n).map Char.toNat

/-- Model of `fmt.Sprintf("%.<prec>f", v)`: sign, integer digits, a dot,
and exactly `prec` fraction digits.  Rounding is to nearest (half away
from zero); every value formatted in this file is an exact `prec`-digit
decimal, where all rounding modes agree. -/
def formatFixed (prec : Nat) (q : ℚ) : List Nat :=
  let scaled := (q.num.natAbs * 10 ^ prec + q.den / 2) / q.den
  let frDigits := natDigits (scaled % 10 ^ prec)
  (if q.num < 0 then strBytes "-" else []) ++
    natDigits (scaled / 10 ^ prec) ++ strBytes "." ++
    List.replicate (prec - frDigits.length) (byteOf '0') ++ frDigits

/-- The `String()` methods of the `Number`/`Boolean`/`String` wrappers
(`%.10f`, `true`/`false`, and quoting respectively).  Raw Go values do
not implement the printable interface, so those cases are unreachable
wherever this is used. -/
def literalString (v : GoValue) : List Nat :=
  match v with
  | .Number q => formatFixed 10 q
  | .Boolean b => if b then strBytes "true" else strBytes "false"
  | .String s => strBytes "\"" ++ s ++ strBytes "\""
  | _ => []

/-- `stringify`: the default printer for evaluated Lox values (`%f` is Go's
six-digit fixed format). -/
def stringify (v : GoValue) : List Nat :=
  match v with
  | .nil => strBytes "nil"
  | .float64 q => formatFixed 6 q
  | .string s => s
  | .bool b => if b then strBytes "true" else strBytes "false"
  | v => strBytes "_" ++ literalString v

/-- `Interpret`: evaluate and either print the stringified value or
forward the `RuntimeError` to the reporter.  (The `none` fuel-exhaustion
case corresponds to the Go program never returning.) -/
def Interpret (fuel : Nat) (expr : Expr) (reporter : Reporter) :
    Reporter × Option (List Nat) :=
  match visit fuel expr with
  | none => (reporter, none)
  | some (.error e) => (reporter.runtimeError e, none)
  | some (.ok r) => (reporter, some (stringify r))

/-! ## Printer (`printer.go`, `Printer`)

`parenthesize(name, exprs...)` is inlined at each node: it writes `(`,
the name, then a space before each rendered child, then `)`. -/

/-- `Print`: render a tree to parenthesized prefix text. -/
def Print : Expr → List Nat
  | .Literal v => if v = .nil then strBytes "nil" else literalString v
  | .Grouping e => strBytes "(group " ++ Print e ++ strBytes ")"
  | .Unary op r => strBytes "(" ++ op.lexeme ++ strBytes " " ++ Print r ++ strBytes ")"
  | .Binary l op r =>
      strBytes "(" ++ op.lexeme ++ strBytes " " ++ Print l ++ strBytes " " ++ Print r
        ++ strBytes ")"
  | .Ternary c t f =>
      strBytes "(?: " ++ Print c ++ strBytes " " ++ Print t ++ strBytes " " ++ Print f
        ++ strBytes ")"

/-! ## Parser (`frontend.go`, `Parser`)

The Go parser signals failure with `panic(parseError{})`, caught once in
`Parse` by `recover()`.  Here every rule returns
`Option (Reporter × Except PErr (Expr × Nat))`: the outer `Option` is the
fuel (see the header note), the `Except` the propagating panic, and the
`Nat` the cursor after the rule.  A failed interface type assertion in
`primary` is a different Go panic; `Parse`'s unconditional `recover()`
swallows it too, leaving the named results at their zero values. -/

/-- The two kinds of panic that can cross parser frames: the internal
unwind signal `parseError{}`, and the runtime panic of a failed type
assertion in `primary`. -/
inductive PErr where
  | parseError
  | typeAssertionPanic
deriving DecidableEq

/-- The grammar rules of the recursive descent, one tag per Go method.
`binLoop ops sub acc` is the shared shape of the five left-associative
binary loops (`comma`, `equality`, `comparison`, `addition`,
`multiplication`): while one of `ops` matches, parse `sub` and fold into
a `Binary` node. -/
inductive PRule where
  | expression
  | comma
  | ternary
  | equality
  | comparison
  | addition
  | multiplication
  | unary
  | primary
  | binLoop (ops : List TokenType) (sub : PRule) (acc : Expr)
deriving DecidableEq

/-- `peek`: `tokens[current]` (out-of-range access defaults to an
EOF-typed token; see the header note). -/
def peekP (tokens : List Token) (cur : Nat) : Token := tokens.getD cur eofToken

/-- `previous`: `tokens[current-1]`. -/
def previousP (tokens : List Token) (cur : Nat) : Token := tokens.getD (cur - 1) eofToken

/-- `isAtEnd`: the current token is the EOF marker. -/
def isAtEndP (tokens : List Token) (cur : Nat) : Bool := (peekP tokens cur).type = .TokenEof

/-- `check`: not at the end and looking at the given kind. -/
def checkP (tokens : List Token) (ty : TokenType) (cur : Nat) : Bool :=
  ! isAtEndP tokens cur && (peekP tokens cur).type = ty

/-- `match`: try each kind in order; on the first `check` success advance
(returning the new cursor), else `none`. -/
def matchP (tokens : List Token) : List TokenType → Nat → Option Nat
  | [], _ => none
  | ty :: rest, cur => if checkP tokens ty cur then some (cur + 1) else matchP tokens rest cur

/-- `error`: report the diagnostic (` at end` for EOF, else ` at '<lexeme>'`)
and hand back the unwind signal for the caller to `panic` with. -/
def errorP (tok : Token) (msg : String) (rep : Reporter) : Reporter :=
  if tok.type = .TokenEof then rep.report tok.line (strBytes " at end") msg
  else rep.report tok.line (strBytes " at '" ++ tok.lexeme ++ strBytes "'") msg

/-- `consume`: advance past the expected kind or report and unwind. -/
def consumeP (tokens : List Token) (ty : TokenType) (msg : String) (cur : Nat)
    (rep : Reporter) : Reporter × Except PErr Nat :=
  if checkP tokens ty cur then (rep, .ok (cur + 1))
  else (errorP (peekP tokens cur) msg rep, .error .parseError)

/-- A parse result: the reporter state plus either the value (an
expression and the new cursor) or a propagating panic. -/
abbrev PRes := Option (Reporter × Except PErr (Expr × Nat))

/-- Sequencing of two parse steps, modelling consecutive Go statements:
a panic in the first step propagates past the second, and the
continuation receives the reporter, expression and cursor it produced. -/
def pbind (x : PRes) (k : Reporter → Expr → Nat → PRes) : PRes :=
  match x with
  | none => none
  | some (rep, .error e) => some (rep, .error e)
  | some (rep, .ok (e, cur)) => k rep e cur

/-- One step of the recursive descent, by rule tag, with fuel.  Each Go
method body is the corresponding case. -/
def runRule (tokens : List Token) : PRule → Nat → Nat → Reporter → PRes
  | _, 0, _, _ => none
  | .expression, fuel + 1, cur, rep => runRule tokens .comma fuel cur rep
  | .comma, fuel + 1, cur, rep =>
    pbind (runRule tokens .ternary fuel cur rep) (fun rep' e cur' =>
      runRule tokens (.binLoop [.TokenComma] .ternary e) fuel cur' rep')
  | .ternary, fuel + 1, cur, rep =>
    pbind (runRule tokens .equality fuel cur rep) (fun rep' e cur' =>
      match matchP tokens [.TokenQuestion] cur' with
      | none => some (rep', .ok (e, cur'))
      | some cur2 =>
        pbind (runRule tokens .expression fuel cur2 rep') (fun rep2 trueExpr cur3 =>
          match consumeP tokens .TokenColon "Expect colon." cur3 rep2 with
          | (rep3, .error pe) => some (rep3, .error pe)
          | (rep3, .ok cur4) =>
            pbind (runRule tokens .expression fuel cur4 rep3) (fun rep4 falseExpr cur5 =>
              some (rep4, .ok (.Ternary e trueExpr falseExpr, cur5)))))
  | .equality, fuel + 1, cur, rep =>
    pbind (runRule tokens .comparison fuel cur rep) (fun rep' e cur' =>
      runRule tokens (.binLoop [.TokenEqualEqual, .TokenBangEqual] .comparison e) fuel cur' rep')
  | .comparison, fuel + 1, cur, rep =>
    pbind (runRule tokens .addition fuel cur rep) (fun rep' e cur' =>
      runRule tokens
        (.binLoop [.TokenGreater, .TokenGreaterEqual, .TokenLess, .TokenLessEqual] .addition e)
        fuel cur' rep')
  | .addition, fuel + 1, cur, rep =>
    pbind (runRule tokens .multiplication fuel cur rep) (fun rep' e cur' =>
      runRule tokens (.binLoop [.TokenMinus, .TokenPlus] .multiplication e) fuel cur' rep')
  | .multiplication, fuel + 1, cur, rep =>
    pbind (runRule tokens .unary fuel cur rep) (fun rep' e cur' =>
      runRule tokens (.binLoop [.TokenStar, .TokenSlash] .unary e) fuel cur' rep')
  | .unary, fuel + 1, cur, rep =>
    match matchP tokens [.TokenBang, .TokenMinus] cur with
    | some cur' =>
      pbind (runRule tokens .unary fuel cur' rep) (fun rep' right cur2 =>
        some (rep', .ok (.Unary (previousP tokens cur') right, cur2)))
    | none => runRule tokens .primary fuel cur rep
  | .primary, fuel + 1, cur, rep =>
    match matchP tokens [.TokenFalse] cur with
    | some cur' => some (rep, .ok (.Literal (.Boolean false), cur'))
    | none =>
    match matchP tokens [.TokenTrue] cur with
    | some cur' => some (rep, .ok (.Literal (.Boolean true), cur'))
    | none =>
    match matchP tokens [.TokenNil] cur with
    | some cur' => some (rep, .ok (.Literal .nil, cur'))
    | none =>
    match matchP tokens [.TokenNumber] cur with
    | some cur' =>
      (match (previousP tokens cur').literal with
       | .Number q => some (rep, .ok (.Literal (.Number q), cur'))
       | _ => some (rep, .error .typeAssertionPanic))
    | none =>
    match matchP tokens [.TokenString] cur with
    | some cur' =>
      (match (previousP tokens cur').literal with
       | .string s => some (rep, .ok (.Literal (.String s), cur'))
       | _ => some (rep, .error .typeAssertionPanic))
    | none =>
    match matchP tokens [.TokenLeftParen] cur with
    | some cur' =>
      pbind (runRule tokens .expression fuel cur' rep) (fun rep' e cur2 =>
        match consumeP tokens .TokenRightParen "Expect ')' after expression." cur2 rep' with
        | (rep2, .error pe) => some (rep2, .error pe)
        | (rep2, .ok cur3) => some (rep2, .ok (.Grouping e, cur3)))
    | none => some (errorP (peekP tokens cur) "Expect expression." rep, .error .parseError)
  | .binLoop ops sub acc, fuel + 1, cur, rep =>
    match matchP tokens ops cur with
    | none => some (rep, .ok (acc, cur))
    | some cur' =>
      pbind (runRule tokens sub fuel cur' rep) (fun rep' right cur2 =>
        runRule tokens (.binLoop ops sub (.Binary acc (previousP tokens cur') right)) fuel cur2 rep')


/-- Rank of a rule in the precedence ladder, used in the termination
measure: every non-consuming call descends to a strictly smaller rank, and
every token consumption buys a full 20 ranks. -/
def ruleRank : PRule → Nat
  | .expression => 14
  | .comma => 13
  | .ternary => 11
  | .equality => 10
  | .comparison => 8
  | .addition => 6
  | .multiplication => 4
  | .unary => 2
  | .primary => 1
  | .binLoop _ sub _ => ruleRank sub + 1

/-- The outcome of the top-level `Parse`: an expression, the
`(nil, errors.New("failed to parse"))` result of a caught `parseError`,
or the `(nil, nil)` result of `recover()` swallowing any other panic. -/
inductive ParseRet where
  | tree (e : Expr)
  | failedParse
  | recovered
deriving DecidableEq

/-- Fuel sufficient for any parse of the given token list
(`runRule_isSome` below). -/
def parseFuel (tokens : List Token) : Nat := 20 * (tokens.length + 2)

/-- `Parse`: run `expression` from cursor 0 and catch panics once, as the
`defer`/`recover` block does. -/
def Parse (tokens : List Token) (rep : Reporter) : Option (Reporter × ParseRet) :=
  match runRule tokens .expression (parseFuel tokens) 0 rep with
  | none => none
  | some (rep', .ok (e, _)) => some (rep', .tree e)
  | some (rep', .error .parseError) => some (rep', .failedParse)
  | some (rep', .error .typeAssertionPanic) => some (rep', .recovered)

/-! ## Host driver (`cmd/glox.go`) -/

/-- The exit classification returned by `run`. -/
inductive ErrorType where
  | HadNoError
  | HadGeneralError
  | HadRuntimeError
deriving DecidableEq

/-- The observable outcome of one `run`: the classification, the final
reporter, and — when and only when the interpreter was invoked — its
printed output (`none` inside means a runtime error or divergence). -/
structure RunResult where
  exit : ErrorType
  reporter : Reporter
  evald : Option (Option (List Nat))
deriving DecidableEq

/-- `run`: scan, parse (`Frontend.Parse` discards the error result and
keeps only the tree), stop with `HadGeneralError` if any diagnostic was
reported, otherwise interpret a non-nil tree.  The fuel `none` branch of
`Parse` is dead code (`Parse_isSome` below). -/
def run (code : List Nat) : RunResult :=
  let scanned := ScanTokens code {}
  match Parse scanned.1 scanned.2 with
  | none => ⟨.HadNoError, scanned.2, none⟩
  | some (rep2, ret) =>
    if rep2.hadError then ⟨.HadGeneralError, rep2, none⟩
    else
      match ret with
      | .tree e =>
        let interpreted := Interpret (exprSize e + 1) e rep2
        if interpreted.1.hadRuntimeError then ⟨.HadRuntimeError, interpreted.1, some interpreted.2⟩
        else ⟨.HadNoError, interpreted.1, some interpreted.2⟩
      | _ => ⟨.HadNoError, rep2, none⟩

/-! ## Sanity lemmas: the `mkRat`-implemented arithmetic is exact -/

theorem ratAdd_eq (a b : ℚ) : ratAdd a b = a + b := by
  unfold ratAdd
  rw [Rat.mkRat_eq_div]
  have ha : ((a.den : ℚ)) ≠ 0 := by exact_mod_cast a.den_nz
  have hb : ((b.den : ℚ)) ≠ 0 := by exact_mod_cast b.den_nz
  conv_rhs => rw [← Rat.num_div_den a, ← Rat.num_div_den b]
  push_cast
  field_simp

theorem ratNeg_eq (a : ℚ) : ratNeg a = -a := by
  unfold ratNeg
  rw [Rat.mkRat_eq_div]
  have ha : ((a.den : ℚ)) ≠ 0 := by exact_mod_cast a.den_nz
  conv_rhs => rw [← Rat.num_div_den a]
  push_cast
  field_simp

theorem ratLtB_eq (a b : ℚ) : ratLtB a b = decide (a < b) := by
  unfold ratLtB
  simp only [decide_eq_decide]
  exact Rat.lt_def.symm

/-! ## Scanner lemmas: progress, totality, and token-payload shape -/

@[simp]
theorem addLiteralToken_current (src : List Nat) (ty : TokenType) (lit : GoValue)
    (st : ScanState) : (addLiteralToken src ty lit st).current = st.current := rfl

@[simp]
theorem addToken_current (src : List Nat) (ty : TokenType) (st : ScanState) :
    (addToken src ty st).current = st.current := rfl

theorem commentLoop_le (src : List Nat) (fuel cur : Nat) : cur ≤ commentLoop src fuel cur := by
  induction fuel generalizing cur with
  | zero => simp [commentLoop]
  | succ f ih =>
    simp only [commentLoop]
    split
    · exact le_trans (Nat.le_succ cur) (ih (cur + 1))
    · exact le_refl cur

theorem stringLoop_le (src : List Nat) (fuel cur line : Nat) :
    cur ≤ (stringLoop src fuel cur line).1 := by
  induction fuel generalizing cur line with
  | zero => simp [stringLoop]
  | succ f ih =>
    simp only [stringLoop]
    split
    · exact le_trans (Nat.le_succ cur) (ih (cur + 1) _)
    · exact le_refl cur

theorem digitsLoop_le (src : List Nat) (fuel cur : Nat) : cur ≤ digitsLoop src fuel cur := by
  induction fuel generalizing cur with
  | zero => simp [digitsLoop]
  | succ f ih =>
    simp only [digitsLoop]
    split
    · exact le_trans (Nat.le_succ cur) (ih (cur + 1))
    · exact le_refl cur

theorem identLoop_le (src : List Nat) (fuel cur : Nat) : cur ≤ identLoop src fuel cur := by
  induction fuel generalizing cur with
  | zero => simp [identLoop]
  | succ f ih =>
    simp only [identLoop]
    split
    · exact le_trans (Nat.le_succ cur) (ih (cur + 1))
    · exact le_refl cur

theorem matchS_le (src : List Nat) (cur expected : Nat) : cur ≤ (matchS src cur expected).2 := by
  unfold matchS
  split_ifs <;> simp

theorem matchEqElse_le (src : List Nat) (two one : TokenType) (st : ScanState) :
    st.current ≤ (matchEqElse src two one st).current := by
  unfold matchEqElse
  dsimp only
  split_ifs <;> simp only [addToken_current]
  · exact matchS_le src _ _
  · exact le_refl _

theorem stringFn_le (src : List Nat) (st : ScanState) :
    st.current ≤ (stringFn src st).current := by
  unfold stringFn
  dsimp only
  split_ifs <;> simp only [addLiteralToken_current]
  · exact stringLoop_le src _ _ _
  · exact le_trans (stringLoop_le src _ _ _) (Nat.le_succ _)

theorem numberFn_le (src : List Nat) (st : ScanState) :
    st.current ≤ (numberFn src st).current := by
  unfold numberFn
  dsimp only
  split_ifs <;> simp only [addLiteralToken_current]
  · exact le_trans (digitsLoop_le src _ _)
      (le_trans (Nat.le_succ _) (digitsLoop_le src _ _))
  · exact digitsLoop_le src _ _

theorem identifierFn_le (src : List Nat) (st : ScanState) :
    st.current ≤ (identifierFn src st).current := by
  unfold identifierFn
  dsimp only
  simp only [addToken_current]
  exact identLoop_le src _ _

/-- The dispatched `switch` body never moves the cursor backwards. -/
theorem dispatchToken_le (src : List Nat) (c : Nat) (st : ScanState) :
    st.current ≤ (dispatchToken src c st).current := by
  unfold dispatchToken
  split
  · simp only [addToken_current]
    exact le_refl _
  split
  · exact matchEqElse_le src _ _ st
  dsimp only
  split_ifs <;>
    first
      | exact stringFn_le src st
      | exact numberFn_le src st
      | exact identifierFn_le src st
      | exact le_trans (matchS_le src _ _) (commentLoop_le src _ _)
      | (simp only [addToken_current]; exact le_refl _)
      | exact le_refl _

/-- Every `scanToken` strictly advances the cursor: `advance()` consumes
one byte and every later step only moves forward. -/
theorem scanToken_lt (src : List Nat) (st : ScanState) :
    st.current < (scanToken src st).current := by
  unfold scanToken
  exact lt_of_lt_of_le (Nat.lt_succ_self _)
    (dispatchToken_le src (peekS src st.current) { st with current := st.current + 1 })

/-- Fuel sufficiency for the scan loop: the Go `for !isAtEnd` loop runs at
most one iteration per remaining byte. -/
theorem scanLoop_isSome (src : List Nat) (fuel : Nat) (st : ScanState)
    (h : src.length - st.current < fuel) : (scanLoop src fuel st).isSome := by
  induction fuel generalizing st with
  | zero => omega
  | succ f ih =>
    simp only [scanLoop]
    split
    · rename_i hend
      apply ih
      have hlt := scanToken_lt src { st with start := st.current }
      simp only [isAtEndS, decide_eq_true_eq, not_le] at hend
      dsimp only at hlt
      omega
    · simp

/-! ### Shape of scanner-produced literal payloads -/

theorem lookup_val_mem {α β : Type} [BEq α] (l : List (α × β)) (k : α) (v : β)
    (h : l.lookup k = some v) : v ∈ l.map Prod.snd := by
  induction l with
  | nil => cases h
  | cons p rest ih =>
    obtain ⟨a, b⟩ := p
    simp only [List.lookup] at h
    split at h
    · cases h; simp
    · simp only [List.map_cons, List.mem_cons]
      exact Or.inr (ih h)

theorem keywordLookup_ok (w : List Nat) :
    keywordLookup w ≠ .TokenNumber ∧ keywordLookup w ≠ .TokenString := by
  unfold keywordLookup
  split
  · rename_i ty h
    have hmem := lookup_val_mem keywords w ty h
    have : ∀ ty2 ∈ keywords.map Prod.snd,
        ty2 ≠ TokenType.TokenNumber ∧ ty2 ≠ TokenType.TokenString := by decide
    exact this ty hmem
  · exact ⟨by decide, by decide⟩

set_option maxHeartbeats 2000000 in
theorem singleTokenType_ok (c : Nat) (ty : TokenType) (h : singleTokenType c = some ty) :
    ty ≠ .TokenNumber ∧ ty ≠ .TokenString := by
  unfold singleTokenType at h
  split_ifs at h <;> (cases h) <;> exact ⟨by decide, by decide⟩

set_option maxHeartbeats 2000000 in
theorem twoCharTypes_ok (c : Nat) (tys : TokenType × TokenType) (h : twoCharTypes c = some tys) :
    tys.1 ≠ .TokenNumber ∧ tys.1 ≠ .TokenString ∧ tys.2 ≠ .TokenNumber ∧ tys.2 ≠ .TokenString := by
  unfold twoCharTypes at h
  split_ifs at h <;> (cases h) <;> exact ⟨by decide, by decide, by decide, by decide⟩

theorem addLiteralToken_tokens (src : List Nat) (ty : TokenType) (lit : GoValue)
    (st : ScanState) :
    (addLiteralToken src ty lit st).tokens =
      st.tokens ++ [⟨ty, (src.drop st.start).take (st.current - st.start), lit, st.line⟩] := rfl

/-- A token appended with a kind other than number/string satisfies the
payload discipline. -/
theorem addLiteralToken_ok (src : List Nat) (ty : TokenType) (lit : GoValue) (st : ScanState)
    (h1 : ty ≠ .TokenNumber) (h2 : ty ≠ .TokenString) :
    ∃ Δ, (addLiteralToken src ty lit st).tokens = st.tokens ++ Δ ∧
      ∀ t ∈ Δ, scannedLitOK t := by
  refine ⟨_, addLiteralToken_tokens .., ?_⟩
  intro t ht
  simp only [List.mem_singleton] at ht
  subst ht
  exact ⟨fun h => absurd h h1, fun h => absurd h h2⟩

theorem addToken_ok (src : List Nat) (ty : TokenType) (st : ScanState)
    (h1 : ty ≠ .TokenNumber) (h2 : ty ≠ .TokenString) :
    ∃ Δ, (addToken src ty st).tokens = st.tokens ++ Δ ∧ ∀ t ∈ Δ, scannedLitOK t := by
  unfold addToken
  exact addLiteralToken_ok src ty .nil st h1 h2

theorem matchEqElse_ok (src : List Nat) (two one : TokenType) (st : ScanState)
    (h1 : two ≠ .TokenNumber) (h2 : two ≠ .TokenString)
    (h3 : one ≠ .TokenNumber) (h4 : one ≠ .TokenString) :
    ∃ Δ, (matchEqElse src two one st).tokens = st.tokens ++ Δ ∧
      ∀ t ∈ Δ, scannedLitOK t := by
  unfold matchEqElse
  dsimp only
  split_ifs
  · exact addToken_ok src two _ h1 h2
  · exact addToken_ok src one _ h3 h4

theorem stringFn_ok (src : List Nat) (st : ScanState) :
    ∃ Δ, (stringFn src st).tokens = st.tokens ++ Δ ∧ ∀ t ∈ Δ, scannedLitOK t := by
  unfold stringFn
  dsimp only
  split_ifs
  · refine ⟨[], ⟨by simp, ?_⟩⟩
    intro t ht
    cases ht
  · refine ⟨_, addLiteralToken_tokens .., ?_⟩
    intro t ht
    simp only [List.mem_singleton] at ht
    subst ht
    exact ⟨fun h => (nomatch h), fun _ => ⟨_, rfl⟩⟩

theorem numberFn_ok (src : List Nat) (st : ScanState) :
    ∃ Δ, (numberFn src st).tokens = st.tokens ++ Δ ∧ ∀ t ∈ Δ, scannedLitOK t := by
  unfold numberFn
  dsimp only
  refine ⟨_, addLiteralToken_tokens .., ?_⟩
  intro t ht
  simp only [List.mem_singleton] at ht
  subst ht
  exact ⟨fun _ => ⟨_, rfl⟩, fun h => nomatch h⟩

theorem identifierFn_ok (src : List Nat) (st : ScanState) :
    ∃ Δ, (identifierFn src st).tokens = st.tokens ++ Δ ∧ ∀ t ∈ Δ, scannedLitOK t := by
  unfold identifierFn
  dsimp only
  obtain ⟨h1, h2⟩ := keywordLookup_ok ((src.drop st.start).take
    (identLoop src src.length st.current - st.start))
  exact addToken_ok src _ _ h1 h2

/-- Every token appended by one dispatch step satisfies the payload
discipline. -/
theorem dispatchToken_tokens_ok (src : List Nat) (c : Nat) (st : ScanState) :
    ∃ Δ, (dispatchToken src c st).tokens = st.tokens ++ Δ ∧ ∀ t ∈ Δ, scannedLitOK t := by
  unfold dispatchToken
  split
  · rename_i ty hty
    obtain ⟨h1, h2⟩ := singleTokenType_ok c ty hty
    exact addLiteralToken_ok src ty .nil st h1 h2
  split
  · rename_i tys htys
    obtain ⟨h1, h2, h3, h4⟩ := twoCharTypes_ok c tys htys
    exact matchEqElse_ok src tys.1 tys.2 st h1 h2 h3 h4
  dsimp only
  split_ifs <;>
    first
      | exact addToken_ok src .TokenSlash st (by decide) (by decide)
      | exact stringFn_ok src st
      | exact numberFn_ok src st
      | exact identifierFn_ok src st
      | (refine ⟨[], ⟨by simp, ?_⟩⟩
         intro t ht
         cases ht)

/-- The payload discipline is preserved across the whole scan loop. -/
theorem scanLoop_tokens_ok (src : List Nat) (fuel : Nat) (st st' : ScanState)
    (hrun : scanLoop src fuel st = some st') (hok : ∀ t ∈ st.tokens, scannedLitOK t) :
    ∀ t ∈ st'.tokens, scannedLitOK t := by
  induction fuel generalizing st with
  | zero => simp [scanLoop] at hrun
  | succ f ih =>
    simp only [scanLoop] at hrun
    split at hrun
    · refine ih _ hrun ?_
      unfold scanToken
      obtain ⟨Δ, hΔ, hΔok⟩ := dispatchToken_tokens_ok src (peekS src st.current)
        { st with current := st.current + 1, start := st.current }
      rw [hΔ]
      intro t ht
      rcases List.mem_append.mp ht with h | h
      · exact hok t h
      · exact hΔok t h
    · cases hrun
      exact hok

/-- Every token produced by `ScanTokens` satisfies the payload
discipline (the EOF token carries `nil` and is neither kind). -/
theorem ScanTokens_ok (src : List Nat) (rep : Reporter) :
    ∀ t ∈ (ScanTokens src rep).1, scannedLitOK t := by
  unfold ScanTokens
  split
  · rename_i st hst
    intro t ht
    rcases List.mem_append.mp ht with h | h
    · exact scanLoop_tokens_ok src _ _ _ hst (by simp [initialScanState]) t h
    · simp only [List.mem_singleton] at h
      subst h
      exact ⟨fun h => (nomatch h), fun h => nomatch h⟩
  · intro t ht
    simp only [List.mem_singleton] at ht
    subst ht
    exact ⟨fun h => (nomatch h), fun h => nomatch h⟩

/-! ### Resilience to unrecognized characters -/

/-- On an unrecognized byte, `scanToken` only reports
`"Unexpected character."` and moves on to the next byte: the token list
is untouched and scanning resumes right after the offending byte. -/
theorem scanToken_unrecognized (src : List Nat) (st : ScanState)
    (h : unrecognizedByte (peekS src st.current) = true) :
    scanToken src st =
      { st with current := st.current + 1,
                reporter := st.reporter.error st.line "Unexpected character." } := by
  unfold scanToken dispatchToken
  simp only [unrecognizedByte, Bool.and_eq_true, bne_iff_ne, ne_eq, Bool.not_eq_true',
    Option.isNone_iff_eq_none] at h
  obtain ⟨⟨⟨⟨⟨⟨⟨⟨⟨h1, h2⟩, h3⟩, h4⟩, h5⟩, h6⟩, h7⟩, h8⟩, h9⟩, h10⟩ := h
  rw [h1, h2]
  simp only [h3, h4, h5, h6, h7, h8, h9, h10]
  simp

/-! ## Evaluator lemmas -/

/-- Evaluation of any `Unary` node exhausts every fuel budget: line 162 of
`backend.go` recurses on the unary node itself, so the Go program
recurses forever (until stack overflow) and the model returns `none` for
every fuel. -/
theorem visit_unary_none (op : Token) (r : Expr) :
    ∀ fuel, visit fuel (.Unary op r) = none := by
  intro fuel
  induction fuel with
  | zero => rfl
  | succ f ih => simp only [visit, ih]

theorem assertNumber_error (op : Token) (v : GoValue) (err : RuntimeError)
    (h : assertNumber op v = .error err) : err = ⟨op, .operandMustBeNumber⟩ := by
  unfold assertNumber at h
  split at h
  · cases h
  · cases h
  · injection h with h2
    exact h2.symm

theorem assertString_error (v : GoValue) (err : RuntimeError)
    (h : assertString v = .error err) : err = ⟨emptyToken, .operandMustBeString⟩ := by
  unfold assertString at h
  split at h
  · cases h
  · cases h
  · injection h with h2
    exact h2.symm

/-- Every `RuntimeError` built by the binary-operator dispatch either
carries the operator token or is the `assertString` error with the zero
value `Token{}`. -/
theorem visitBinaryOp_error (op : Token) (l r : GoValue) (err : RuntimeError)
    (h : visitBinaryOp op l r = .error err) :
    err.token = op ∨ err = ⟨emptyToken, .operandMustBeString⟩ := by
  unfold visitBinaryOp at h
  repeat' split at h
  all_goals try cases h
  all_goals
    first
      | (left; rfl)
      | (rename_i heq
         obtain rfl := assertNumber_error _ _ _ heq
         left
         rfl)
      | (rename_i heq
         obtain rfl := assertString_error _ _ heq
         right
         rfl)

/-- Attribution of every evaluator `RuntimeError`: the carried token is an
operator token of the evaluated tree, except for the string-concatenation
mismatch, which carries `Token{}` (line 0). -/
theorem visit_error (fuel : Nat) : ∀ (e : Expr) (err : RuntimeError),
    visit fuel e = some (.error err) →
    err.token ∈ opTokens e ∨ err = ⟨emptyToken, .operandMustBeString⟩ := by
  induction fuel with
  | zero => intro e err h; cases h
  | succ f ih =>
    intro e err h
    cases e with
    | Literal v => simp [visit] at h
    | Grouping g =>
      simp only [visit] at h
      rcases ih g err h with h' | h'
      · exact Or.inl h'
      · exact Or.inr h'
    | Unary op r =>
      rw [visit_unary_none op r (f + 1)] at h
      cases h
    | Binary l op r =>
      simp only [visit] at h
      cases hl : visit f l with
      | none => rw [hl] at h; cases h
      | some resl =>
        rw [hl] at h
        cases resl with
        | error e1 =>
          cases h
          rcases ih l _ hl with h' | h'
          · left
            simp only [opTokens, List.mem_cons, List.mem_append]
            exact Or.inr (Or.inl h')
          · exact Or.inr h'
        | ok left =>
          cases hr : visit f r with
          | none => rw [hr] at h; cases h
          | some resr =>
            rw [hr] at h
            cases resr with
            | error e2 =>
              cases h
              rcases ih r _ hr with h' | h'
              · left
                simp only [opTokens, List.mem_cons, List.mem_append]
                exact Or.inr (Or.inr h')
              · exact Or.inr h'
            | ok right =>
              dsimp only at h
              injection h with h2
              rcases visitBinaryOp_error op left right err h2 with h' | h'
              · left
                simp only [opTokens, List.mem_cons]
                exact Or.inl h'
              · exact Or.inr h'
    | Ternary c t fb =>
      simp only [visit] at h
      cases hc : visit f c with
      | none => rw [hc] at h; cases h
      | some resc =>
        rw [hc] at h
        cases resc with
        | error e1 =>
          cases h
          rcases ih c _ hc with h' | h'
          · left
            simp only [opTokens, List.mem_append]
            exact Or.inl (Or.inl h')
          · exact Or.inr h'
        | ok cond =>
          dsimp only at h
          by_cases htr : isTruthy cond = true
          · rw [if_pos htr] at h
            rcases ih t err h with h' | h'
            · left
              simp only [opTokens, List.mem_append]
              exact Or.inl (Or.inr h')
            · exact Or.inr h'
          · rw [if_neg htr] at h
            rcases ih fb err h with h' | h'
            · left
              simp only [opTokens, List.mem_append]
              exact Or.inr h'
            · exact Or.inr h'


/-! ## Parser lemmas: cursor facts, monotonicity, fuel sufficiency -/

theorem checkP_lt (tokens : List Token) (ty : TokenType) (cur : Nat)
    (h : checkP tokens ty cur = true) : cur < tokens.length := by
  by_contra hge
  push_neg at hge
  unfold checkP isAtEndP peekP at h
  rw [List.getD_eq_default _ _ hge] at h
  simp [eofToken] at h

theorem checkP_peek (tokens : List Token) (ty : TokenType) (cur : Nat)
    (h : checkP tokens ty cur = true) : (peekP tokens cur).type = ty := by
  unfold checkP at h
  simp only [Bool.and_eq_true, decide_eq_true_eq] at h
  exact h.2

/-- A successful `match` advanced by exactly one over an in-range token. -/
theorem matchP_eq (tokens : List Token) (tys : List TokenType) (cur j : Nat)
    (h : matchP tokens tys cur = some j) : j = cur + 1 ∧ cur < tokens.length := by
  induction tys with
  | nil => cases h
  | cons ty rest ih =>
    simp only [matchP] at h
    split at h
    · cases h
      exact ⟨rfl, checkP_lt tokens ty cur (by assumption)⟩
    · exact ih h

/-- A successful `consume` advanced by exactly one over an in-range token. -/
theorem consumeP_ok (tokens : List Token) (ty : TokenType) (msg : String) (cur : Nat)
    (rep : Reporter) {rep' : Reporter} {j : Nat}
    (h : consumeP tokens ty msg cur rep = (rep', .ok j)) : j = cur + 1 ∧ cur < tokens.length := by
  unfold consumeP at h
  split_ifs at h with hc
  · injection h with h1 h2
    injection h2 with h3
    exact ⟨h3.symm, checkP_lt tokens ty cur hc⟩
  · injection h with h1 h2
    cases h2

/-- Inversion for `pbind` producing a value. -/
theorem pbind_ok {x : PRes} {k : Reporter → Expr → Nat → PRes} {rep' : Reporter} {e : Expr}
    {j : Nat} (h : pbind x k = some (rep', .ok (e, j))) :
    ∃ rep1 e1 j1, x = some (rep1, .ok (e1, j1)) ∧ k rep1 e1 j1 = some (rep', .ok (e, j)) := by
  unfold pbind at h
  split at h
  · cases h
  · simp at h
  · exact ⟨_, _, _, rfl, h⟩

theorem runRule_zero (tokens : List Token) (r : PRule) (cur : Nat) (rep : Reporter) :
    runRule tokens r 0 cur rep = none := by
  cases r <;> rfl

/-- The parser cursor never moves backwards. -/
theorem runRule_mono (tokens : List Token) (fuel : Nat) :
    ∀ (r : PRule) (cur : Nat) (rep rep' : Reporter) (e : Expr) (j : Nat),
      runRule tokens r fuel cur rep = some (rep', .ok (e, j)) → cur ≤ j := by
  induction fuel with
  | zero => intro r cur rep rep' e j h; rw [runRule_zero] at h; cases h
  | succ f ih =>
    intro r cur rep rep' e j h
    cases r with
    | expression => exact ih _ _ _ _ _ _ h
    | comma =>
      simp only [runRule] at h
      obtain ⟨rep1, e1, j1, h1, h2⟩ := pbind_ok h
      exact le_trans (ih _ _ _ _ _ _ h1) (ih _ _ _ _ _ _ h2)
    | equality =>
      simp only [runRule] at h
      obtain ⟨rep1, e1, j1, h1, h2⟩ := pbind_ok h
      exact le_trans (ih _ _ _ _ _ _ h1) (ih _ _ _ _ _ _ h2)
    | comparison =>
      simp only [runRule] at h
      obtain ⟨rep1, e1, j1, h1, h2⟩ := pbind_ok h
      exact le_trans (ih _ _ _ _ _ _ h1) (ih _ _ _ _ _ _ h2)
    | addition =>
      simp only [runRule] at h
      obtain ⟨rep1, e1, j1, h1, h2⟩ := pbind_ok h
      exact le_trans (ih _ _ _ _ _ _ h1) (ih _ _ _ _ _ _ h2)
    | multiplication =>
      simp only [runRule] at h
      obtain ⟨rep1, e1, j1, h1, h2⟩ := pbind_ok h
      exact le_trans (ih _ _ _ _ _ _ h1) (ih _ _ _ _ _ _ h2)
    | ternary =>
      simp only [runRule] at h
      obtain ⟨rep1, e1, j1, h1, h2⟩ := pbind_ok h
      have ha := ih _ _ _ _ _ _ h1
      cases hq : matchP tokens [.TokenQuestion] j1 with
      | none =>
        rw [hq] at h2
        cases h2
        exact ha
      | some cur2 =>
        rw [hq] at h2
        obtain ⟨hj, hlt⟩ := matchP_eq tokens _ j1 cur2 hq
        obtain ⟨rep2, e2, j2, h3, h4⟩ := pbind_ok h2
        have hb := ih _ _ _ _ _ _ h3
        cases hcons : consumeP tokens .TokenColon "Expect colon." j2 rep2 with
        | mk rep3 res3 =>
          rw [hcons] at h4
          cases res3 with
          | error pe => simp at h4
          | ok cur4 =>
            obtain ⟨hj4, hlt4⟩ := consumeP_ok tokens _ _ j2 rep2 hcons
            dsimp only at h4
            obtain ⟨rep4, e4, j4, h5, h6⟩ := pbind_ok h4
            have hc := ih _ _ _ _ _ _ h5
            cases h6
            omega
    | unary =>
      simp only [runRule] at h
      cases hm : matchP tokens [.TokenBang, .TokenMinus] cur with
      | none =>
        rw [hm] at h
        exact ih _ _ _ _ _ _ h
      | some cur' =>
        rw [hm] at h
        obtain ⟨hj, hlt⟩ := matchP_eq tokens _ cur cur' hm
        obtain ⟨rep1, e1, j1, h1, h2⟩ := pbind_ok h
        have ha := ih _ _ _ _ _ _ h1
        cases h2
        omega
    | primary =>
      simp only [runRule] at h
      cases h1 : matchP tokens [.TokenFalse] cur with
      | some cur' =>
        rw [h1] at h
        cases h
        obtain ⟨hj, _⟩ := matchP_eq tokens _ cur _ h1
        omega
      | none =>
      rw [h1] at h
      cases h2 : matchP tokens [.TokenTrue] cur with
      | some cur' =>
        rw [h2] at h
        cases h
        obtain ⟨hj, _⟩ := matchP_eq tokens _ cur _ h2
        omega
      | none =>
      rw [h2] at h
      cases h3 : matchP tokens [.TokenNil] cur with
      | some cur' =>
        rw [h3] at h
        cases h
        obtain ⟨hj, _⟩ := matchP_eq tokens _ cur _ h3
        omega
      | none =>
      rw [h3] at h
      cases h4 : matchP tokens [.TokenNumber] cur with
      | some cur' =>
        rw [h4] at h
        dsimp only at h
        obtain ⟨hj, _⟩ := matchP_eq tokens _ cur _ h4
        split at h
        · cases h
          omega
        · cases h
      | none =>
      rw [h4] at h
      cases h5 : matchP tokens [.TokenString] cur with
      | some cur' =>
        rw [h5] at h
        dsimp only at h
        obtain ⟨hj, _⟩ := matchP_eq tokens _ cur _ h5
        split at h
        · cases h
          omega
        · cases h
      | none =>
      rw [h5] at h
      cases h6 : matchP tokens [.TokenLeftParen] cur with
      | some cur' =>
        rw [h6] at h
        obtain ⟨hj, _⟩ := matchP_eq tokens _ cur _ h6
        obtain ⟨rep1, e1, j1, hh1, hh2⟩ := pbind_ok h
        have ha := ih _ _ _ _ _ _ hh1
        cases hcons : consumeP tokens .TokenRightParen "Expect ')' after expression." j1 rep1 with
        | mk rep2 res2 =>
          rw [hcons] at hh2
          cases res2 with
          | error pe => simp at hh2
          | ok cur3 =>
            obtain ⟨hj3, _⟩ := consumeP_ok tokens _ _ j1 rep1 hcons
            dsimp only at hh2
            cases hh2
            omega
      | none =>
        rw [h6] at h
        simp at h
    | binLoop ops sub acc =>
      simp only [runRule] at h
      cases hm : matchP tokens ops cur with
      | none =>
        rw [hm] at h
        cases h
        exact le_refl cur
      | some cur' =>
        rw [hm] at h
        obtain ⟨hj, hlt⟩ := matchP_eq tokens _ cur cur' hm
        obtain ⟨rep1, e1, j1, h1, h2⟩ := pbind_ok h
        have ha := ih _ _ _ _ _ _ h1
        have hb := ih _ _ _ _ _ _ h2
        omega

theorem pbind_isSome {x : PRes} {k : Reporter → Expr → Nat → PRes} (hx : x.isSome = true)
    (hk : ∀ rep1 e1 j1, x = some (rep1, .ok (e1, j1)) → (k rep1 e1 j1).isSome = true) :
    (pbind x k).isSome = true := by
  unfold pbind
  split
  · simp at hx
  · simp
  · exact hk _ _ _ rfl

/-- Fuel sufficiency for the recursive descent: with fuel at least
`20 * (remaining tokens + 1) + rank`, no rule runs out. -/
theorem runRule_isSome (tokens : List Token) (fuel : Nat) :
    ∀ (r : PRule) (cur : Nat) (rep : Reporter),
      20 * (tokens.length + 1 - min cur tokens.length) + ruleRank r ≤ fuel →
      (runRule tokens r fuel cur rep).isSome = true := by
  induction fuel with
  | zero =>
    intro r cur rep hμ
    exfalso
    have hmin : min cur tokens.length ≤ tokens.length := Nat.min_le_right _ _
    omega
  | succ f ih =>
    intro r cur rep hμ
    cases r with
    | expression =>
      exact ih .comma cur rep (by simp only [ruleRank] at hμ ⊢; omega)
    | comma =>
      simp only [runRule]
      apply pbind_isSome (ih .ternary cur rep (by simp only [ruleRank] at hμ ⊢; omega))
      intro rep1 e1 j1 h1
      have hm := runRule_mono tokens f .ternary cur rep rep1 e1 j1 h1
      have hmin : min cur tokens.length ≤ min j1 tokens.length := by omega
      exact ih _ j1 rep1 (by simp only [ruleRank] at hμ ⊢; omega)
    | equality =>
      simp only [runRule]
      apply pbind_isSome (ih .comparison cur rep (by simp only [ruleRank] at hμ ⊢; omega))
      intro rep1 e1 j1 h1
      have hm := runRule_mono tokens f .comparison cur rep rep1 e1 j1 h1
      have hmin : min cur tokens.length ≤ min j1 tokens.length := by omega
      exact ih _ j1 rep1 (by simp only [ruleRank] at hμ ⊢; omega)
    | comparison =>
      simp only [runRule]
      apply pbind_isSome (ih .addition cur rep (by simp only [ruleRank] at hμ ⊢; omega))
      intro rep1 e1 j1 h1
      have hm := runRule_mono tokens f .addition cur rep rep1 e1 j1 h1
      have hmin : min cur tokens.length ≤ min j1 tokens.length := by omega
      exact ih _ j1 rep1 (by simp only [ruleRank] at hμ ⊢; omega)
    | addition =>
      simp only [runRule]
      apply pbind_isSome (ih .multiplication cur rep (by simp only [ruleRank] at hμ ⊢; omega))
      intro rep1 e1 j1 h1
      have hm := runRule_mono tokens f .multiplication cur rep rep1 e1 j1 h1
      have hmin : min cur tokens.length ≤ min j1 tokens.length := by omega
      exact ih _ j1 rep1 (by simp only [ruleRank] at hμ ⊢; omega)
    | multiplication =>
      simp only [runRule]
      apply pbind_isSome (ih .unary cur rep (by simp only [ruleRank] at hμ ⊢; omega))
      intro rep1 e1 j1 h1
      have hm := runRule_mono tokens f .unary cur rep rep1 e1 j1 h1
      have hmin : min cur tokens.length ≤ min j1 tokens.length := by omega
      exact ih _ j1 rep1 (by simp only [ruleRank] at hμ ⊢; omega)
    | ternary =>
      simp only [runRule]
      apply pbind_isSome (ih .equality cur rep (by simp only [ruleRank] at hμ ⊢; omega))
      intro rep1 e1 j1 h1
      have hm1 := runRule_mono tokens f .equality cur rep rep1 e1 j1 h1
      cases hq : matchP tokens [.TokenQuestion] j1 with
      | none => simp
      | some cur2 =>
        obtain ⟨hj2, hlt2⟩ := matchP_eq tokens _ j1 cur2 hq
        dsimp only
        apply pbind_isSome (ih .expression cur2 rep1 (by simp only [ruleRank] at hμ ⊢; omega))
        intro rep2 e2 j2 h3
        have hm2 := runRule_mono tokens f .expression cur2 rep1 rep2 e2 j2 h3
        cases hcons : consumeP tokens .TokenColon "Expect colon." j2 rep2 with
        | mk rep3 res3 =>
          cases res3 with
          | error pe => simp
          | ok cur4 =>
            obtain ⟨hj4, hlt4⟩ := consumeP_ok tokens _ _ j2 rep2 hcons
            dsimp only
            apply pbind_isSome (ih .expression cur4 rep3 (by simp only [ruleRank] at hμ ⊢; omega))
            intro rep4 e4 j4 h5
            simp
    | unary =>
      simp only [runRule]
      cases hm : matchP tokens [.TokenBang, .TokenMinus] cur with
      | none => exact ih .primary cur rep (by simp only [ruleRank] at hμ ⊢; omega)
      | some cur' =>
        obtain ⟨hj, hlt⟩ := matchP_eq tokens _ cur cur' hm
        apply pbind_isSome (ih .unary cur' rep (by simp only [ruleRank] at hμ ⊢; omega))
        intro rep1 e1 j1 h1
        simp
    | primary =>
      simp only [runRule]
      cases h1 : matchP tokens [.TokenFalse] cur
      case some => simp
      case none =>
      dsimp only
      cases h2 : matchP tokens [.TokenTrue] cur
      case some => simp
      case none =>
      dsimp only
      cases h3 : matchP tokens [.TokenNil] cur
      case some => simp
      case none =>
      dsimp only
      cases h4 : matchP tokens [.TokenNumber] cur
      case some cur' =>
        dsimp only
        split <;> simp
      case none =>
      dsimp only
      cases h5 : matchP tokens [.TokenString] cur
      case some cur' =>
        dsimp only
        split <;> simp
      case none =>
      dsimp only
      cases h6 : matchP tokens [.TokenLeftParen] cur
      case some cur' =>
        obtain ⟨hj, hlt⟩ := matchP_eq tokens _ cur cur' h6
        dsimp only
        apply pbind_isSome (ih .expression cur' rep (by simp only [ruleRank] at hμ ⊢; omega))
        intro rep1 e1 j1 hh1
        cases hcons : consumeP tokens .TokenRightParen "Expect ')' after expression." j1 rep1 with
        | mk rep2 res2 =>
          cases res2 with
          | error pe => simp
          | ok cur3 => simp
      case none =>
        simp
    | binLoop ops sub acc =>
      simp only [runRule]
      cases hm : matchP tokens ops cur with
      | none => simp
      | some cur' =>
        obtain ⟨hj, hlt⟩ := matchP_eq tokens _ cur cur' hm
        apply pbind_isSome (ih sub cur' rep (by simp only [ruleRank] at hμ ⊢; omega))
        intro rep1 e1 j1 h1
        have hm1 := runRule_mono tokens f sub cur' rep rep1 e1 j1 h1
        exact ih _ j1 rep1 (by simp only [ruleRank] at hμ ⊢; omega)

/-- The top-level `Parse` never runs out of fuel. -/
theorem Parse_isSome (tokens : List Token) (rep : Reporter) :
    (Parse tokens rep).isSome = true := by
  have h := runRule_isSome tokens (parseFuel tokens) .expression 0 rep
    (by unfold parseFuel; simp only [ruleRank]; omega)
  unfold Parse
  split
  · rename_i heq
    rw [heq] at h
    simp at h
  · simp
  · simp
  · simp

/-! ### The parser's literal type assertions on scanner tokens -/

theorem matchP_single (tokens : List Token) (ty : TokenType) (cur cur' : Nat)
    (h : matchP tokens [ty] cur = some cur') :
    cur' = cur + 1 ∧ cur < tokens.length ∧ (peekP tokens cur).type = ty := by
  simp only [matchP] at h
  split at h
  · rename_i hc
    cases h
    exact ⟨rfl, checkP_lt _ _ _ hc, checkP_peek _ _ _ hc⟩
  · cases h

theorem peekP_mem (tokens : List Token) (cur : Nat) (h : cur < tokens.length) :
    peekP tokens cur ∈ tokens := by
  unfold peekP
  rw [List.getD_eq_getElem _ _ h]
  exact List.getElem_mem h

theorem previousP_succ (tokens : List Token) (cur : Nat) :
    previousP tokens (cur + 1) = peekP tokens cur := by
  unfold previousP peekP
  simp

theorem consumeP_error (tokens : List Token) (ty : TokenType) (msg : String) (cur : Nat)
    (rep : Reporter) {rep' : Reporter} {pe : PErr}
    (h : consumeP tokens ty msg cur rep = (rep', .error pe)) : pe = .parseError := by
  unfold consumeP at h
  split_ifs at h
  · injection h with h1 h2
    cases h2
  · injection h with h1 h2
    injection h2 with h3
    exact h3.symm

theorem pbind_no_assert {x : PRes} {k : Reporter → Expr → Nat → PRes}
    (hx : ∀ rep1, x ≠ some (rep1, .error .typeAssertionPanic))
    (hk : ∀ rep1 e1 j1 rep2, k rep1 e1 j1 ≠ some (rep2, .error .typeAssertionPanic)) :
    ∀ rep', pbind x k ≠ some (rep', .error .typeAssertionPanic) := by
  intro rep'
  unfold pbind
  split
  · simp
  · rename_i rep1 e1
    intro hcon
    simp only [Option.some.injEq, Prod.mk.injEq, Except.error.injEq] at hcon
    obtain ⟨h1, h2⟩ := hcon
    subst h2
    exact hx rep1 rfl
  · exact hk _ _ _ _

/-- On a token list whose number/string tokens carry the right payloads —
as the scanner guarantees — the two interface type assertions in
`primary` can never fire. -/
theorem runRule_no_assert (tokens : List Token) (hok : ∀ t ∈ tokens, scannedLitOK t)
    (fuel : Nat) :
    ∀ (r : PRule) (cur : Nat) (rep rep' : Reporter),
      runRule tokens r fuel cur rep ≠ some (rep', .error .typeAssertionPanic) := by
  induction fuel with
  | zero =>
    intro r cur rep rep' h
    rw [runRule_zero] at h
    cases h
  | succ f ih =>
    intro r cur rep rep'
    cases r with
    | expression => exact ih .comma cur rep rep'
    | comma =>
      simp only [runRule]
      exact pbind_no_assert (fun rep1 => ih _ _ _ _) (fun rep1 e1 j1 rep2 => ih _ _ _ _) rep'
    | equality =>
      simp only [runRule]
      exact pbind_no_assert (fun rep1 => ih _ _ _ _) (fun rep1 e1 j1 rep2 => ih _ _ _ _) rep'
    | comparison =>
      simp only [runRule]
      exact pbind_no_assert (fun rep1 => ih _ _ _ _) (fun rep1 e1 j1 rep2 => ih _ _ _ _) rep'
    | addition =>
      simp only [runRule]
      exact pbind_no_assert (fun rep1 => ih _ _ _ _) (fun rep1 e1 j1 rep2 => ih _ _ _ _) rep'
    | multiplication =>
      simp only [runRule]
      exact pbind_no_assert (fun rep1 => ih _ _ _ _) (fun rep1 e1 j1 rep2 => ih _ _ _ _) rep'
    | ternary =>
      simp only [runRule]
      apply pbind_no_assert (fun rep1 => ih _ _ _ _)
      intro rep1 e1 j1 rep2
      cases hq : matchP tokens [.TokenQuestion] j1 with
      | none => simp
      | some cur2 =>
        dsimp only
        apply pbind_no_assert (fun rep3 => ih _ _ _ _)
        intro rep3 e3 j3 rep4
        cases hcons : consumeP tokens .TokenColon "Expect colon." j3 rep3 with
        | mk rep5 res5 =>
          cases res5 with
          | error pe =>
            have := consumeP_error tokens _ _ j3 rep3 hcons
            subst this
            dsimp only
            intro hcon
            simp only [Option.some.injEq, Prod.mk.injEq, Except.error.injEq] at hcon
            exact (by cases hcon.2 : False)
          | ok cur4 =>
            dsimp only
            apply pbind_no_assert (fun rep6 => ih _ _ _ _)
            intro rep6 e6 j6 rep7
            simp
    | unary =>
      simp only [runRule]
      cases hm : matchP tokens [.TokenBang, .TokenMinus] cur with
      | none => exact ih .primary cur rep rep'
      | some cur' =>
        dsimp only
        apply pbind_no_assert (fun rep1 => ih _ _ _ _)
        intro rep1 e1 j1 rep2
        simp
    | primary =>
      simp only [runRule]
      cases h1 : matchP tokens [.TokenFalse] cur
      case some => simp
      case none =>
      dsimp only
      cases h2 : matchP tokens [.TokenTrue] cur
      case some => simp
      case none =>
      dsimp only
      cases h3 : matchP tokens [.TokenNil] cur
      case some => simp
      case none =>
      dsimp only
      cases h4 : matchP tokens [.TokenNumber] cur
      case some cur' =>
        obtain ⟨hj, hlt, hty⟩ := matchP_single tokens _ cur cur' h4
        subst hj
        dsimp only
        rw [previousP_succ]
        obtain ⟨q, hq⟩ := (hok _ (peekP_mem tokens cur hlt)).1 hty
        rw [hq]
        simp
      case none =>
      dsimp only
      cases h5 : matchP tokens [.TokenString] cur
      case some cur' =>
        obtain ⟨hj, hlt, hty⟩ := matchP_single tokens _ cur cur' h5
        subst hj
        dsimp only
        rw [previousP_succ]
        obtain ⟨sv, hs⟩ := (hok _ (peekP_mem tokens cur hlt)).2 hty
        rw [hs]
        simp
      case none =>
      dsimp only
      cases h6 : matchP tokens [.TokenLeftParen] cur
      case some cur' =>
        dsimp only
        apply pbind_no_assert (fun rep1 => ih _ _ _ _)
        intro rep1 e1 j1 rep2
        cases hcons : consumeP tokens .TokenRightParen "Expect ')' after expression." j1 rep1 with
        | mk rep3 res3 =>
          cases res3 with
          | error pe =>
            have := consumeP_error tokens _ _ j1 rep1 hcons
            subst this
            dsimp only
            intro hcon
            simp only [Option.some.injEq, Prod.mk.injEq, Except.error.injEq] at hcon
            exact (by cases hcon.2 : False)
          | ok cur3 => simp
      case none => simp
    | binLoop ops sub acc =>
      simp only [runRule]
      cases hm : matchP tokens ops cur with
      | none => simp
      | some cur' =>
        dsimp only
        exact pbind_no_assert (fun rep1 => ih _ _ _ _) (fun rep1 e1 j1 rep2 => ih _ _ _ _) rep'

/-- On scanner-produced tokens `Parse` never swallows a type-assertion
panic: the `recovered` outcome is unreachable. -/
theorem Parse_no_recovered (tokens : List Token) (hok : ∀ t ∈ tokens, scannedLitOK t)
    (rep rep' : Reporter) : Parse tokens rep ≠ some (rep', .recovered) := by
  unfold Parse
  split
  · simp
  · simp
  · simp
  · rename_i heq
    exact absurd heq (runRule_no_assert tokens hok _ _ _ _ _)

/-! ## The claims -/

/-- C1 (code bug): the claim says the truthiness test classifies a value
as falsy exactly when it is nil or the boolean false, so `false ? 1 : 5`
would evaluate only the false branch and yield 5.  The code disagrees
with the claim and with `isTruthy`'s own comment: evaluation produces
*raw* Go booleans (`VisitLiteral` unwraps the `Boolean` wrapper), while
`isTruthy` only recognizes the wrapper type `Boolean`, so the raw `false`
lands in the default branch and is classified truthy; the ternary
`false ? 1 : 5` therefore evaluates its TRUE branch and yields 1. -/
theorem C1_truthiness_code_bug :
    visit 2 (.Literal (.Boolean false)) = some (.ok (.bool false)) ∧
    isTruthy (.bool false) = true ∧
    visit 4 (.Ternary (.Literal (.Boolean false)) (.Literal (.Number 1))
      (.Literal (.Number 5))) = some (.ok (.float64 1)) := by
  refine ⟨by decide, by decide, by decide⟩

/-- C2 (code bug): the claim says a Unary `-` node whose operand is a
number evaluates to its negation.  In the code, line 162 of `backend.go`
reads `e, right := interpreter.visit(unary)` — it recurses on the unary
node itself instead of `unary.Right`, so evaluation of *any* unary node
never terminates (`none` for every fuel); in particular the tree the
parser produces for `-1` never yields `-1`. -/
theorem C2_unary_code_bug :
    (∀ (fuel : Nat) (op : Token) (r : Expr), visit fuel (.Unary op r) = none) ∧
    Parse (ScanTokens (strBytes "-1") {}).1 {} =
      some ({}, .tree (.Unary ⟨.TokenMinus, strBytes "-", .nil, 1⟩
        (.Literal (.Number 1)))) := by
  refine ⟨fun fuel op r => visit_unary_none op r fuel, by decide⟩

/-- C3 counterexample: the parse of `1, 2, 3` evaluates to the
RuntimeError "unknown binary operation" carried by the comma token — not
to 3 — because `VisitBinary` has no `TokenComma` case and falls through
to its final error return. -/
theorem C3_comma_counterexample :
    Parse (ScanTokens (strBytes "1, 2, 3") {}).1 {} =
      some ({}, .tree (.Binary
        (.Binary (.Literal (.Number 1)) ⟨.TokenComma, strBytes ",", .nil, 1⟩
          (.Literal (.Number 2)))
        ⟨.TokenComma, strBytes ",", .nil, 1⟩
        (.Literal (.Number 3)))) ∧
    visit 10 (.Binary
        (.Binary (.Literal (.Number 1)) ⟨.TokenComma, strBytes ",", .nil, 1⟩
          (.Literal (.Number 2)))
        ⟨.TokenComma, strBytes ",", .nil, 1⟩
        (.Literal (.Number 3))) =
      some (.error ⟨⟨.TokenComma, strBytes ",", .nil, 1⟩, .unknownBinaryOperation⟩) := by
  refine ⟨by decide, by decide⟩

/-- C3 amended: for every Binary node whose operator is the comma, both
operands are still evaluated left to right, and then — because the
evaluator's switch has no comma case — the result is the RuntimeError
"unknown binary operation" carried by the comma token; the left operand's
value is discarded but so is the right one's, and `1, 2, 3` yields that
error, not 3. -/
theorem C3_comma_amended (tok : Token) (l r : Expr) (fuel : Nat) (lv rv : GoValue)
    (htok : tok.type = .TokenComma)
    (hl : visit fuel l = some (.ok lv)) (hr : visit fuel r = some (.ok rv)) :
    visit (fuel + 1) (.Binary l tok r) =
      some (.error ⟨tok, .unknownBinaryOperation⟩) := by
  simp only [visit, hl, hr]
  unfold visitBinaryOp
  rw [htok]

/-- Witness for the amended C3 at `1 , 2`. -/
theorem C3_comma_amended_witness :
    visit 2 (.Binary (.Literal (.Number 1)) ⟨.TokenComma, strBytes ",", .nil, 1⟩
        (.Literal (.Number 2))) =
      some (.error ⟨⟨.TokenComma, strBytes ",", .nil, 1⟩, .unknownBinaryOperation⟩) :=
  C3_comma_amended ⟨.TokenComma, strBytes ",", .nil, 1⟩ _ _ 1 (.float64 1) (.float64 2)
    rfl (by decide) (by decide)

/-- C4 counterexample: with a number on the left of `+` and a non-number
on the right, the evaluator *does* return a RuntimeError (the claim's
parenthetical is right that nothing falls through with neither value nor
error), but its message is the generic "unknown binary operation" — the
empty `if` branch exits the switch into the final error return — and not
a message diagnosing the type mismatch (`operandMustBeNumber` or
`expectedTwoStringsOrTwoNumbers` are the mismatch diagnostics of §4.3). -/
theorem C4_plus_counterexample :
    visit 2 (.Binary (.Literal (.Number 1)) ⟨.TokenPlus, strBytes "+", .nil, 1⟩
        (.Literal (.Boolean true))) =
      some (.error ⟨⟨.TokenPlus, strBytes "+", .nil, 1⟩, .unknownBinaryOperation⟩) ∧
    Msg.unknownBinaryOperation ≠ Msg.operandMustBeNumber ∧
    Msg.unknownBinaryOperation ≠
      Msg.expectedTwoStringsOrTwoNumbers (.float64 1) (.bool true) := by
  refine ⟨by decide, by decide, by decide⟩

/-- C4 amended: for every Binary `+` whose left operand evaluates to a
(raw) number and whose right operand evaluates to a non-number, the
evaluation yields the RuntimeError "unknown binary operation" carried by
the operator token: it returns no normal value, and it does not return
"neither a value nor an error" — the empty branch merely reaches the
generic error return below the switch. -/
theorem C4_plus_amended (tok : Token) (l r : Expr) (fuel : Nat) (q : ℚ) (rv : GoValue)
    (htok : tok.type = .TokenPlus)
    (hl : visit fuel l = some (.ok (.float64 q)))
    (hr : visit fuel r = some (.ok rv))
    (hrv : ∀ q2 : ℚ, rv ≠ .float64 q2 ∧ rv ≠ .Number q2) :
    visit (fuel + 1) (.Binary l tok r) =
      some (.error ⟨tok, .unknownBinaryOperation⟩) := by
  simp only [visit, hl, hr]
  unfold visitBinaryOp
  rw [htok]
  dsimp only
  unfold assertNumber
  cases rv with
  | Number q2 => exact absurd rfl (hrv q2).2
  | float64 q2 => exact absurd rfl (hrv q2).1
  | nil => rfl
  | bool b => rfl
  | string s => rfl
  | Boolean b => rfl
  | String s => rfl

/-- Witness for the amended C4 at `1 + true`. -/
theorem C4_plus_amended_witness :
    visit 2 (.Binary (.Literal (.Number 1)) ⟨.TokenPlus, strBytes "+", .nil, 1⟩
        (.Literal (.Boolean true))) =
      some (.error ⟨⟨.TokenPlus, strBytes "+", .nil, 1⟩, .unknownBinaryOperation⟩) :=
  C4_plus_amended ⟨.TokenPlus, strBytes "+", .nil, 1⟩ _ _ 1 1 (.bool true)
    rfl (by decide) (by decide) (fun q2 => ⟨fun h => (nomatch h), fun h => (nomatch h)⟩)

/-- C5: whenever a parse step raises the internal unwind signal (the
`parseError` panic), the top-level `Parse` catches it and returns no
expression tree — only the generic "failed to parse" outcome, with no
partial tree — and, through the host driver `run`, the evaluator is never
invoked on that input (the interpreter branch of `run` is not reached, so
`evald` stays `none`). -/
theorem C5_unwind_no_tree_no_eval :
    (∀ (tokens : List Token) (rep rep' : Reporter),
        runRule tokens .expression (parseFuel tokens) 0 rep =
          some (rep', .error .parseError) →
        Parse tokens rep = some (rep', .failedParse)) ∧
    (∀ (code : List Nat) (rep' : Reporter),
        runRule (ScanTokens code {}).1 .expression (parseFuel (ScanTokens code {}).1) 0
            (ScanTokens code {}).2 = some (rep', .error .parseError) →
        (run code).evald = none) := by
  have hparse : ∀ (tokens : List Token) (rep rep' : Reporter),
      runRule tokens .expression (parseFuel tokens) 0 rep =
        some (rep', .error .parseError) →
      Parse tokens rep = some (rep', .failedParse) := by
    intro tokens rep rep' h
    unfold Parse
    rw [h]
  refine ⟨hparse, ?_⟩
  intro code rep' h
  have hp := hparse _ _ _ h
  unfold run
  dsimp only
  rw [hp]
  dsimp only
  split <;> rfl

/-- Witness for C5 at the input `(1 +`: the parse unwinds with the
reported "Expect expression." at end, `Parse` yields the failure outcome,
and `run` never reaches the interpreter. -/
theorem C5_witness :
    Parse (ScanTokens (strBytes "(1 +") {}).1 (ScanTokens (strBytes "(1 +") {}).2 =
      some (⟨true, false, [.diag 1 (strBytes " at end") "Expect expression."]⟩,
        .failedParse) ∧
    (run (strBytes "(1 +")).evald = none := by
  refine ⟨C5_unwind_no_tree_no_eval.1 (ScanTokens (strBytes "(1 +") {}).1
      (ScanTokens (strBytes "(1 +") {}).2
      ⟨true, false, [.diag 1 (strBytes " at end") "Expect expression."]⟩ (by decide),
    C5_unwind_no_tree_no_eval.2 (strBytes "(1 +")
      ⟨true, false, [.diag 1 (strBytes " at end") "Expect expression."]⟩ (by decide)⟩

/-- C6: for every finite token sequence whose last token is the
end-of-input marker, `Parse` terminates: it returns a result (a tree or a
parse failure), never the fuel-exhaustion marker.  (The underlying fuel
sufficiency `runRule_isSome` holds for arbitrary token lists.) -/
theorem C6_parse_terminates (tokens : List Token) (rep : Reporter)
    (_h : ∃ t, tokens.getLast? = some t ∧ t.type = .TokenEof) :
    ∃ res, Parse tokens rep = some res :=
  Option.isSome_iff_exists.mp (Parse_isSome tokens rep)

/-- Witness for C6 at the token list of `1`. -/
theorem C6_witness :
    ∃ res, Parse [⟨.TokenNumber, strBytes "1", .Number 1, 1⟩,
      ⟨.TokenEof, [], .nil, 1⟩] {} = some res :=
  C6_parse_terminates _ {} ⟨⟨.TokenEof, [], .nil, 1⟩, by decide, by decide⟩

/-- C7 counterexample: the tree the Parser produces for `1+2` evaluates
to 3, but the Printer renders it as the prefix text
`(+ 1.0000000000 2.0000000000)`, and re-scanning/re-parsing that text
fails with a syntax error (no tree at all) — so the round trip does not
reproduce a tree with identical evaluation results. -/
theorem C7_roundtrip_counterexample :
    Parse (ScanTokens (strBytes "1+2") {}).1 {} =
      some ({}, .tree (.Binary (.Literal (.Number 1)) ⟨.TokenPlus, strBytes "+", .nil, 1⟩
        (.Literal (.Number 2)))) ∧
    visit 10 (.Binary (.Literal (.Number 1)) ⟨.TokenPlus, strBytes "+", .nil, 1⟩
        (.Literal (.Number 2))) = some (.ok (.float64 3)) ∧
    Print (.Binary (.Literal (.Number 1)) ⟨.TokenPlus, strBytes "+", .nil, 1⟩
        (.Literal (.Number 2))) = strBytes "(+ 1.0000000000 2.0000000000)" ∧
    Parse (ScanTokens (strBytes "(+ 1.0000000000 2.0000000000)") {}).1 {} =
      some (⟨true, false, [.diag 1 (strBytes " at '+'") "Expect expression."]⟩,
        .failedParse) := by
  refine ⟨by decide, by decide, by decide, by decide⟩

/-- C7 amended: re-scanning/re-parsing the rendered text does not in
general reproduce a tree with identical evaluation results — for the
Parser's tree for `1+2`, which evaluates to 3, the prefix rendering fails
to re-parse at all (see the counterexample).  The round trip does hold
for literal leaf trees: booleans, nil, a (quote-free) string and an
exactly-representable number each re-parse to the identical tree.  It can
also succeed for a compound tree: the Parser's tree for `-1` renders as
`(- 1.0000000000)`, which re-parses to the same tree wrapped in one extra
`Grouping` — and that wrapper leaves evaluation behaviour identical (here
both trees diverge, by the `VisitUnary` recursion bug). -/
theorem C7_roundtrip_amended :
    (∀ b : Bool, Parse (ScanTokens (Print (.Literal (.Boolean b))) {}).1 {} =
        some ({}, .tree (.Literal (.Boolean b)))) ∧
    Parse (ScanTokens (Print (.Literal .nil)) {}).1 {} =
      some ({}, .tree (.Literal .nil)) ∧
    Parse (ScanTokens (Print (.Literal (.String (strBytes "ab")))) {}).1 {} =
      some ({}, .tree (.Literal (.String (strBytes "ab")))) ∧
    Parse (ScanTokens (Print (.Literal (.Number 1))) {}).1 {} =
      some ({}, .tree (.Literal (.Number 1))) ∧
    Parse (ScanTokens (Print (.Unary ⟨.TokenMinus, strBytes "-", .nil, 1⟩
        (.Literal (.Number 1)))) {}).1 {} =
      some ({}, .tree (.Grouping (.Unary ⟨.TokenMinus, strBytes "-", .nil, 1⟩
        (.Literal (.Number 1))))) ∧
    (∀ fuel : Nat,
      visit fuel (.Grouping (.Unary ⟨.TokenMinus, strBytes "-", .nil, 1⟩
          (.Literal (.Number 1)))) =
        visit fuel (.Unary ⟨.TokenMinus, strBytes "-", .nil, 1⟩ (.Literal (.Number 1)))) := by
  refine ⟨fun b => ?_, by decide, by decide, by decide, by decide, fun fuel => ?_⟩
  · cases b
    · decide
    · decide
  · cases fuel with
    | zero => rfl
    | succ f =>
      simp only [visit]
      rw [visit_unary_none]

/-- C8: scanning always terminates (the loop fuel `length + 1` is never
exhausted), the token list always ends with the end-of-input token, and
an unrecognized byte adds only the "Unexpected character." diagnostic:
the token list is untouched and scanning resumes at the next byte (the
EOF token is still appended by the surrounding loop, by the second
conjunct applied to the same input). -/
theorem C8_scan_total_resilient :
    (∀ (src : List Nat) (rep : Reporter),
        (scanLoop src (src.length + 1) (initialScanState rep)).isSome = true) ∧
    (∀ (src : List Nat) (rep : Reporter),
        ∃ line, ((ScanTokens src rep).1).getLast? = some ⟨.TokenEof, [], .nil, line⟩) ∧
    (∀ (src : List Nat) (st : ScanState),
        unrecognizedByte (peekS src st.current) = true →
        scanToken src st =
          { st with
              current := st.current + 1,
              reporter := st.reporter.error st.line "Unexpected character." }) := by
  refine ⟨?_, ?_, fun src st h => scanToken_unrecognized src st h⟩
  · intro src rep
    exact scanLoop_isSome src _ _ (by omega)
  · intro src rep
    unfold ScanTokens
    split
    · exact ⟨_, by rw [List.getLast?_concat]⟩
    · exact ⟨1, rfl⟩

/-- Witness for C8 at the input `@`. -/
theorem C8_witness :
    (scanLoop (strBytes "@") ((strBytes "@").length + 1) (initialScanState {})).isSome
      = true ∧
    scanToken (strBytes "@") (initialScanState {}) =
      { initialScanState {} with
          current := 1,
          reporter := Reporter.error {} 1 "Unexpected character." } := by
  refine ⟨C8_scan_total_resilient.1 (strBytes "@") {}, ?_⟩
  exact C8_scan_total_resilient.2.2 (strBytes "@") (initialScanState {}) (by decide)

/-- C9 counterexample: the RuntimeError raised when the left operand of
`+` is a string and the right is not a string comes from `assertString`,
which takes no operator argument and attaches the zero value `Token{}` —
type `TokenLeftParen`, empty lexeme, line 0 — not the `+` operator token,
so the reported line for it is 0, not the operator's line 1. -/
theorem C9_assertString_counterexample :
    visit 2 (.Binary (.Literal (.String (strBytes "a"))) ⟨.TokenPlus, strBytes "+", .nil, 1⟩
        (.Literal (.Number 1))) =
      some (.error ⟨emptyToken, .operandMustBeString⟩) ∧
    emptyToken ≠ (⟨.TokenPlus, strBytes "+", .nil, 1⟩ : Token) ∧
    emptyToken.line = 0 := by
  refine ⟨by decide, by decide, by decide⟩

/-- C9 amended: every RuntimeError produced during evaluation carries an
operator token of the evaluated tree — so the reported line is that
operator's source line — EXCEPT the string-concatenation mismatch error
from `assertString`, which carries the zero value `Token{}` and therefore
reports line 0. -/
theorem C9_error_attribution_amended (fuel : Nat) (e : Expr) (err : RuntimeError)
    (h : visit fuel e = some (.error err)) :
    err.token ∈ opTokens e ∨ err = ⟨emptyToken, .operandMustBeString⟩ :=
  visit_error fuel e err h

/-- Witness for the amended C9 at `1 - true` (the error carries the `-`
operator token of the tree). -/
theorem C9_error_attribution_witness :
    (⟨⟨.TokenMinus, strBytes "-", .nil, 1⟩, .operandMustBeNumber⟩ : RuntimeError).token ∈
        opTokens (.Binary (.Literal (.Number 1)) ⟨.TokenMinus, strBytes "-", .nil, 1⟩
          (.Literal (.Boolean true))) ∨
      (⟨⟨.TokenMinus, strBytes "-", .nil, 1⟩, .operandMustBeNumber⟩ : RuntimeError) =
        ⟨emptyToken, .operandMustBeString⟩ :=
  C9_error_attribution_amended 2
    (.Binary (.Literal (.Number 1)) ⟨.TokenMinus, strBytes "-", .nil, 1⟩
      (.Literal (.Boolean true))) _ (by decide)

/-- C10: every number token the scanner produces carries a `Number`
wrapper payload and every string token carries a raw Go string payload;
consequently the two literal-extraction type assertions in the parser's
`primary` rule cannot fire on scanner-produced input — the `recovered`
outcome (a swallowed type-assertion panic) is unreachable. -/
theorem C10_scanner_payloads :
    (∀ (src : List Nat) (rep : Reporter) (t : Token), t ∈ (ScanTokens src rep).1 →
        (t.type = .TokenNumber → ∃ q, t.literal = .Number q) ∧
        (t.type = .TokenString → ∃ s, t.literal = .string s)) ∧
    (∀ (src : List Nat) (rep rep2 rep' : Reporter),
        Parse (ScanTokens src rep).1 rep2 ≠ some (rep', .recovered)) :=
  ⟨fun src rep t ht => ScanTokens_ok src rep t ht,
   fun src rep rep2 rep' => Parse_no_recovered _ (ScanTokens_ok src rep) rep2 rep'⟩

/-- Witness for C10 at the input `1` and its number token. -/
theorem C10_scanner_payloads_witness :
    (((⟨.TokenNumber, strBytes "1", .Number 1, 1⟩ : Token).type = .TokenNumber →
        ∃ q, (⟨.TokenNumber, strBytes "1", .Number 1, 1⟩ : Token).literal = .Number q) ∧
      ((⟨.TokenNumber, strBytes "1", .Number 1, 1⟩ : Token).type = .TokenString →
        ∃ s, (⟨.TokenNumber, strBytes "1", .Number 1, 1⟩ : Token).literal = .string s)) ∧
    Parse (ScanTokens (strBytes "1") {}).1 {} ≠ some ({}, .recovered) :=
  ⟨C10_scanner_payloads.1 (strBytes "1") {} _ (by decide),
   C10_scanner_payloads.2 (strBytes "1") {} {} {}⟩

end Glox
